import Mathlib

/-!
# Shadow-memory initialisation (`arch/x86/mm/kasan_init_64.c`)

A shallow embedding of the boot-time shadow page-table construction.

* Machine words are `Nat` reduced modulo `2 ^ 64` where the C code can overflow.
* The four table levels are kept in four typed stores, following the C types
  `pgd_t`, `pud_t`, `pmd_t`, `pte_t`: a page is read as a table of one level.
  A table is named by the number of the physical page holding it; an entry is
  `none` when `pXd_none` holds and `some p` when it points to page `p` (the
  protection bits are the same `__PAGE_KERNEL_RO` at every store of this file
  and are not modelled).
* `vmemmap_alloc_block` is the boot allocator: it hands out the zero-filled
  page `brk`, or fails when the oracle `oom` says so for this call.
-/

namespace Kasan

/-! ## Constants of the x86-64 four-level layout -/

def WORD : Nat := 2 ^ 64
def PAGE_SIZE : Nat := 2 ^ 12
def PMD_SIZE : Nat := 2 ^ 21
def PUD_SIZE : Nat := 2 ^ 30
def PGDIR_SIZE : Nat := 2 ^ 39

def pgd_index (a : Nat) : Nat := a / PGDIR_SIZE % 512
def pud_index (a : Nat) : Nat := a / PUD_SIZE % 512
def pmd_index (a : Nat) : Nat := a / PMD_SIZE % 512
def pte_index (a : Nat) : Nat := a / PAGE_SIZE % 512

/-- Page numbers of the shared placeholder tables and of the zero page. -/
def zero_pud : Nat := 1
def zero_pmd : Nat := 2
def zero_pte : Nat := 3
def empty_zero_page : Nat := 4

def ENOMEM : Int := 12

/-! ## Machine state -/

structure State where
  /-- The kernel top-level table `init_level4_pgt`, reached by `pgd_offset_k`. -/
  pgd : Nat → Option Nat
  /-- Upper-level tables: table page, index, entry. -/
  pud : Nat → Nat → Option Nat
  /-- Middle-level tables. -/
  pmd : Nat → Nat → Option Nat
  /-- Leaf tables. -/
  pte : Nat → Nat → Option Nat
  /-- The next page the boot allocator hands out. -/
  brk : Nat
  /-- Number of `vmemmap_alloc_block` calls made so far. -/
  calls : Nat
  /-- The allocator oracle: `oom n` says that call number `n` returns NULL. -/
  oom : Nat → Bool

/-- The boot allocator `vmemmap_alloc_block(PAGE_SIZE, NUMA_NO_NODE)`: NULL, or
the next unused page, zero-filled (so empty whatever table type it is read at). -/
def vmemmap_alloc_block (s : State) : Option Nat × State :=
  if s.oom s.calls then (none, { s with calls := s.calls + 1 })
  else (some s.brk,
    { s with pud := Function.update s.pud s.brk (fun _ => none),
             pmd := Function.update s.pmd s.brk (fun _ => none),
             pte := Function.update s.pte s.brk (fun _ => none),
             brk := s.brk + 1, calls := s.calls + 1 })

/-- The table an entry points to; a none entry decodes to physical page 0. -/
def page_of (e : Option Nat) : Nat := e.getD 0

def set_pgd (pgd : Nat) (v : Nat) (s : State) : State :=
  { s with pgd := Function.update s.pgd pgd (some v) }

def set_pud (pud : Nat × Nat) (v : Nat) (s : State) : State :=
  { s with pud := Function.update s.pud pud.1 (Function.update (s.pud pud.1) pud.2 (some v)) }

def set_pmd (pmd : Nat × Nat) (v : Nat) (s : State) : State :=
  { s with pmd := Function.update s.pmd pmd.1 (Function.update (s.pmd pmd.1) pmd.2 (some v)) }

def set_pte (pte : Nat × Nat) (v : Nat) (s : State) : State :=
  { s with pte := Function.update s.pte pte.1 (Function.update (s.pte pte.1) pte.2 (some v)) }

/-- Source lines 56-69.  Returns the entry pointer (its index) or NULL. -/
def kasan_pgd_populate (addr end_ : Nat) (s : State) : Option Nat × State :=
  let pgd := pgd_index addr
  if s.pgd pgd = none ∧ (addr + PGDIR_SIZE) % WORD < end_ then
    (some pgd, set_pgd pgd zero_pud s)
  else if s.pgd pgd = none then
    match vmemmap_alloc_block s with
    | (none, s1) => (none, s1)
    | (some p, s1) => (some pgd, set_pgd pgd p s1)
  else (some pgd, s)

/-- Source lines 71-85.  An entry pointer below the top level is a pair
(table page, index); `pud_offset` reads the table page out of `*pgd`. -/
def kasan_pud_populate (pgd : Nat) (addr end_ : Nat) (s : State) :
    Option (Nat × Nat) × State :=
  let pud := (page_of (s.pgd pgd), pud_index addr)
  if s.pud pud.1 pud.2 = none ∧ (addr + PUD_SIZE) % WORD < end_ then
    (some pud, set_pud pud zero_pmd s)
  else if s.pud pud.1 pud.2 = none then
    match vmemmap_alloc_block s with
    | (none, s1) => (none, s1)
    | (some p, s1) => (some pud, set_pud pud p s1)
  else (some pud, s)

/-- Source lines 87-101. -/
def kasan_pmd_populate (pud : Nat × Nat) (addr end_ : Nat) (s : State) :
    Option (Nat × Nat) × State :=
  let pmd := (page_of (s.pud pud.1 pud.2), pmd_index addr)
  if s.pmd pmd.1 pmd.2 = none ∧ (addr + PMD_SIZE) % WORD < end_ then
    (some pmd, set_pmd pmd zero_pte s)
  else if s.pmd pmd.1 pmd.2 = none then
    match vmemmap_alloc_block s with
    | (none, s1) => (none, s1)
    | (some p, s1) => (some pmd, set_pmd pmd p s1)
  else (some pmd, s)

/-- Source lines 103-112; `end` is not used by the leaf step. -/
def kasan_pte_populate (pmd : Nat × Nat) (addr _end : Nat) (s : State) :
    Option (Nat × Nat) × State :=
  let pte := (page_of (s.pmd pmd.1 pmd.2), pte_index addr)
  if s.pte pte.1 pte.2 = none then
    (some pte, set_pte pte empty_zero_page s)
  else (some pte, s)

/-- One pass of the loop body of `map_zeroes` (lines 124-140) at `addr`:
`Except.error s` is the `return -ENOMEM` taken in state `s`. -/
def map_zeroes_body (addr end_ : Nat) (s : State) : Except State State :=
  match kasan_pgd_populate addr end_ s with
  | (none, s1) => .error s1
  | (some pgd, s1) =>
    match kasan_pud_populate pgd addr end_ s1 with
    | (none, s2) => .error s2
    | (some pud, s2) =>
      match kasan_pmd_populate pud addr end_ s2 with
      | (none, s3) => .error s3
      | (some pmd, s3) =>
        match kasan_pte_populate pmd addr end_ s3 with
        | (none, s4) => .error s4
        | (some _, s4) => .ok s4

/-- The loop of `map_zeroes` (lines 122-142) run for at most `fuel` passes.
`none`: the passes were used up with `addr < end` still true. -/
def map_zeroes_loop : Nat → Nat → Nat → State → Option (Int × State)
  | 0, addr, end_, s => if addr < end_ then none else some (0, s)
  | fuel + 1, addr, end_, s =>
    if addr < end_ then
      match map_zeroes_body addr end_ s with
      | .error s1 => some (-ENOMEM, s1)
      | .ok s1 => map_zeroes_loop fuel ((addr + PAGE_SIZE) % WORD) end_ s1
    else some (0, s)

/-- Source lines 114-143.  An address repeats after `2 ^ 52` passes, and a
second visit of an address changes nothing, so `2 ^ 53` passes decide the
loop: `none` stands for a call that does not return. -/
def map_zeroes (start end_ : Nat) (s : State) : Option (Int × State) :=
  map_zeroes_loop (2 ^ 53) start end_ s

/-- The four-level walk from `init_level4_pgt`: the leaf entry of `a`. -/
def walk (s : State) (a : Nat) : Option Nat :=
  match s.pgd (pgd_index a) with
  | none => none
  | some t1 =>
    match s.pud t1 (pud_index a) with
    | none => none
    | some t2 =>
      match s.pmd t2 (pmd_index a) with
      | none => none
      | some t3 => s.pte t3 (pte_index a)

/-- The walk stopped at the top level: the entry of `a` in `init_level4_pgt`. -/
def walk_pgd (s : State) (a : Nat) : Option Nat := s.pgd (pgd_index a)

/-- The walk stopped at the upper level. -/
def walk_pud (s : State) (a : Nat) : Option Nat :=
  match s.pgd (pgd_index a) with
  | none => none
  | some t1 => s.pud t1 (pud_index a)

/-- The walk stopped at the middle level. -/
def walk_pmd (s : State) (a : Nat) : Option Nat :=
  match walk_pud s a with
  | none => none
  | some t2 => s.pmd t2 (pmd_index a)

/-- One for an unmapped entry, zero for a mapped one. -/
def miss (o : Option Nat) : Nat := if o = none then 1 else 0

/-- The number of walks still incomplete, per level, among the last two spans
that a window ending at `end_` touches: the only places where `map_zeroes` can
need a private table. -/
def potential (end_ : Nat) (s : State) : Nat :=
  miss (walk_pgd s (end_ - 1)) + miss (walk_pgd s (end_ - 1 - PGDIR_SIZE)) +
  (miss (walk_pud s (end_ - 1)) + miss (walk_pud s (end_ - 1 - PUD_SIZE))) +
  (miss (walk_pmd s (end_ - 1)) + miss (walk_pmd s (end_ - 1 - PMD_SIZE)))

/-- Where state `y` holds a table pointer that state `x` did not hold and that
is not the shared placeholder of its level (a private subtable installed in
between), the entry is the entry, in `y`, of one of the last two spans of its
level that a window ending at `end_` touches. -/
structure Priv (end_ : Nat) (x y : State) : Prop where
  pgd : ∀ i p, y.pgd i = some p → x.pgd i ≠ some p → p = zero_pud ∨
    ∃ b, (b = end_ - 1 ∨ b = end_ - 1 - PGDIR_SIZE) ∧ i = pgd_index b
  pud : ∀ t j p, y.pud t j = some p → x.pud t j ≠ some p → p = zero_pmd ∨
    ∃ b, (b = end_ - 1 ∨ b = end_ - 1 - PUD_SIZE) ∧ walk_pgd y b = some t ∧ j = pud_index b
  pmd : ∀ t j p, y.pmd t j = some p → x.pmd t j ≠ some p → p = zero_pte ∨
    ∃ b, (b = end_ - 1 ∨ b = end_ - 1 - PMD_SIZE) ∧ walk_pud y b = some t ∧ j = pmd_index b

/-- The tables as the early boot code leaves them for this file: the top-level
table empty, the three placeholder tables full, each entry pointing one level
down, pages 0 to 4 in use. -/
def boot_state (oom : Nat → Bool) : State where
  pgd := fun _ => none
  pud := fun t _ => if t = zero_pud then some zero_pmd else none
  pmd := fun t _ => if t = zero_pmd then some zero_pte else none
  pte := fun t _ => if t = zero_pte then some empty_zero_page else none
  brk := 5
  calls := 0
  oom := oom

/-- The state after `map_zeroes(0, PAGE_SIZE)` from `boot_state` with an allocator
that does not fail: private tables 5, 6, 7 under entry 0 of each level and the
zero page in the leaf. -/
def one_page_state : State :=
  let s0 := boot_state (fun _ => false)
  let s1 := set_pgd 0 5 (vmemmap_alloc_block s0).2
  let s2 := set_pud (5, 0) 6 (vmemmap_alloc_block s1).2
  let s3 := set_pmd (6, 0) 7 (vmemmap_alloc_block s2).2
  set_pte (7, 0) empty_zero_page s3

/-! ## Address translation, the real-range mapper and the clearer -/

/-- The constants and macros of the kernel headers that this file uses and
that the source file does not define. -/
structure Config where
  KASAN_SHADOW_OFFSET : Nat
  KASAN_SHADOW_SCALE_SHIFT : Nat
  PAGE_OFFSET : Nat
  MAXMEM : Nat
  __START_KERNEL_map : Nat
  _end : Nat
  MODULES_VADDR : Nat
  pfn_to_kaddr : Nat → Nat

/-- Modelled from the spec: `kasan_mem_to_shadow` is an inline function of
`linux/kasan.h`, which is not among the sources; section 4.1 gives it as
`toShadow(addr) = (addr >> k) + SHADOW_BASE`, here in 64-bit unsigned
arithmetic. -/
def kasan_mem_to_shadow (c : Config) (addr : Nat) : Nat :=
  (addr / 2 ^ c.KASAN_SHADOW_SCALE_SHIFT + c.KASAN_SHADOW_OFFSET) % WORD

/-- The record `struct range` with its fields `start` and `end` (page frame numbers). -/
structure Range where
  start : Nat
  end_ : Nat
deriving DecidableEq

/-- The local `start` of `map_range` (lines 24-25). -/
def map_range_start (c : Config) (range : Range) : Nat :=
  kasan_mem_to_shadow c (c.pfn_to_kaddr range.start)

/-- The local `end` of `map_range` (lines 26-27). -/
def map_range_end (c : Config) (range : Range) : Nat :=
  kasan_mem_to_shadow c (c.pfn_to_kaddr range.end_)

/-- Source lines 22-35.  The populator `vmemmap_populate(start, end, node)` of
the memory-management core is the parameter `populate`. -/
def map_range (c : Config) (populate : Nat → Nat → State → Int × State)
    (range : Range) (s : State) : Int × State :=
  populate (map_range_start c range) ((map_range_end c range + 1) % WORD) s

def pgd_clear (pgd : Nat) (s : State) : State :=
  { s with pgd := Function.update s.pgd pgd none }

/-- The loop of `clear_zero_shadow_mapping` (lines 40-41) run for at most
`fuel` passes; `none`: the passes were used up with `start < end` still true. -/
def clear_loop : Nat → Nat → Nat → State → Option State
  | 0, start, end_, s => if start < end_ then none else some s
  | fuel + 1, start, end_, s =>
    if start < end_ then
      clear_loop fuel ((start + PGDIR_SIZE) % WORD) end_ (pgd_clear (pgd_index start) s)
    else some s

/-- Source lines 37-42.  Without a wrap of `start` the loop makes at most
`2 ^ 25` passes, and once `start` has wrapped it never ends: `none` stands for
a call that does not return. -/
def clear_zero_shadow_mapping (start end_ : Nat) (s : State) : Option State :=
  clear_loop (2 ^ 25) start end_ s

/-! ## The boot orchestrator -/

inductive Cr3 where
  | init_level4_pgt
  | early_level4_pgt
deriving DecidableEq

/-- The steps of `kasan_init`, logged as they run (the results of the
populators are logged with them). -/
inductive Event where
  | vm_area_add_early
  | load_cr3_early
  | clear_direct_map
  | map_range (ret : Int)
  | clear_kernel_map
  | populate_image (ret : Int)
  | map_zeroes (ret : Int)
  | memset_poisoned_page
  | load_cr3_init
  | reset_kasan_depth
deriving DecidableEq

structure Boot where
  /-- The tables rooted at `init_level4_pgt` and the boot allocator. -/
  mm : State
  early_level4_pgt : Nat → Option Nat
  cr3 : Cr3
  /-- The bytes of `poisoned_page`. -/
  poisoned_page : Nat → Nat
  /-- The field `init_task.kasan_depth`. -/
  kasan_depth : Nat
  log : List Event

inductive Outcome where
  /-- `kasan_init` returned. -/
  | done (b : Boot)
  /-- The call `panic("kasan: unable to allocate shadow!")`. -/
  | panic (b : Boot)
  /-- A loop that never ends. -/
  | hang

/-- The loop over `pfn_mapped` (lines 178-184); the list is the whole array.
`Except.error` is the panic. -/
def map_ranges (c : Config) (populate : Nat → Nat → State → Int × State) :
    List Range → Boot → Except Boot Boot
  | [], b => .ok b
  | range :: rest, b =>
    if range.end_ = 0 then .ok b
    else
      let r := map_range c populate range b.mm
      let b1 := { b with mm := r.2, log := b.log ++ [Event.map_range r.1] }
      if r.1 ≠ 0 then .error b1
      else map_ranges c populate rest b1

/-- Source lines 186-197: what `kasan_init` does after the loop. -/
def kasan_init_tail (c : Config) (populate : Nat → Nat → State → Int × State)
    (b : Boot) : Outcome :=
  match clear_zero_shadow_mapping (kasan_mem_to_shadow c c.__START_KERNEL_map)
      (kasan_mem_to_shadow c (WORD - 1)) b.mm with
  | none => .hang
  | some m1 =>
    let r := populate (kasan_mem_to_shadow c c.__START_KERNEL_map)
      (kasan_mem_to_shadow c c._end) m1
    match map_zeroes (kasan_mem_to_shadow c c.MODULES_VADDR)
        (kasan_mem_to_shadow c (WORD - 1)) r.2 with
    | none => .hang
    | some z =>
      .done { b with
        mm := z.2
        poisoned_page := fun _ => 0
        cr3 := Cr3.init_level4_pgt
        kasan_depth := 0
        log := b.log ++ [Event.clear_kernel_map, Event.populate_image r.1,
          Event.map_zeroes z.1, Event.memset_poisoned_page, Event.load_cr3_init,
          Event.reset_kasan_depth] }

/-- Source lines 163-198, without the optional die notifier. -/
def kasan_init (c : Config) (populate : Nat → Nat → State → Int × State)
    (pfn_mapped : List Range) (b : Boot) : Outcome :=
  let b1 := { b with early_level4_pgt := b.mm.pgd, cr3 := Cr3.early_level4_pgt,
                     log := b.log ++ [Event.vm_area_add_early, Event.load_cr3_early] }
  match clear_zero_shadow_mapping (kasan_mem_to_shadow c c.PAGE_OFFSET)
      (kasan_mem_to_shadow c ((c.PAGE_OFFSET + c.MAXMEM) % WORD)) b1.mm with
  | none => .hang
  | some m1 =>
    let b2 := { b1 with mm := m1, log := b1.log ++ [Event.clear_direct_map] }
    match map_ranges c populate pfn_mapped b2 with
    | .error b3 => .panic b3
    | .ok b3 => kasan_init_tail c populate b3

/-- The tables at the moment step 8 of `kasan_init` begins, that is the state
the call `map_zeroes` of line 192 is made in: lines 172-190 run as in
`kasan_init`; `none` when `kasan_init` does not get that far (a loop that never
ends, or the panic of step 5). -/
def kasan_init_before_map_zeroes (c : Config) (populate : Nat → Nat → State → Int × State)
    (pfn_mapped : List Range) (b : Boot) : Option State :=
  let b1 := { b with early_level4_pgt := b.mm.pgd, cr3 := Cr3.early_level4_pgt,
                     log := b.log ++ [Event.vm_area_add_early, Event.load_cr3_early] }
  match clear_zero_shadow_mapping (kasan_mem_to_shadow c c.PAGE_OFFSET)
      (kasan_mem_to_shadow c ((c.PAGE_OFFSET + c.MAXMEM) % WORD)) b1.mm with
  | none => none
  | some m1 =>
    let b2 := { b1 with mm := m1, log := b1.log ++ [Event.clear_direct_map] }
    match map_ranges c populate pfn_mapped b2 with
    | .error _ => none
    | .ok b3 =>
      match clear_zero_shadow_mapping (kasan_mem_to_shadow c c.__START_KERNEL_map)
          (kasan_mem_to_shadow c (WORD - 1)) b3.mm with
      | none => none
      | some m2 =>
        some (populate (kasan_mem_to_shadow c c.__START_KERNEL_map)
          (kasan_mem_to_shadow c c._end) m2).2

/-! ## A populator with real backing -/

/-- Modelled from the spec: the leaf step of the populator under the
`RealBacking` policy of section 4.3 (the populator `vmemmap_populate` is not
among the sources): an unmapped leaf entry receives a freshly allocated,
zero-filled page of its own. -/
def populate_pte (pmd : Nat × Nat) (addr : Nat) (s : State) : Option (Nat × Nat) × State :=
  let pte := (page_of (s.pmd pmd.1 pmd.2), pte_index addr)
  if s.pte pte.1 pte.2 = none then
    match vmemmap_alloc_block s with
    | (none, s1) => (none, s1)
    | (some p, s1) => (some pte, set_pte pte p s1)
  else (some pte, s)

/-- Modelled from the spec: one page of the populator under `RealBacking`
(section 4.3): at each non-leaf level an unmapped entry receives a freshly
allocated private table (the populate steps of this file, called with an empty
remaining window, never take the shared shortcut), then the leaf step;
`Except.error` is the failure `ShadowBackingExhausted`. -/
def populate_body (addr : Nat) (s : State) : Except State State :=
  match kasan_pgd_populate addr 0 s with
  | (none, s1) => .error s1
  | (some pgd, s1) =>
    match kasan_pud_populate pgd addr 0 s1 with
    | (none, s2) => .error s2
    | (some pud, s2) =>
      match kasan_pmd_populate pud addr 0 s2 with
      | (none, s3) => .error s3
      | (some pmd, s3) =>
        match populate_pte pmd addr s3 with
        | (none, s4) => .error s4
        | (some _, s4) => .ok s4

/-- Modelled from the spec: the populator applied to `n` pages from `addr` on
(section 4.3, step 3). -/
def populate_pages : Nat → Nat → State → Int × State
  | 0, _, s => (0, s)
  | n + 1, addr, s =>
    match populate_body addr s with
    | .error s1 => (-ENOMEM, s1)
    | .ok s1 => populate_pages n (addr + PAGE_SIZE) s1

/-- Modelled from the spec: `vmemmap_populate(start, end, node)` of the
memory-management core is not among the sources; this is the Table Populator
of section 4.3 under the `RealBacking` policy, over the pages that meet the
window from `start` to `end_`. -/
def vmemmap_populate (start end_ : Nat) (s : State) : Int × State :=
  populate_pages ((end_ + (PAGE_SIZE - 1)) / PAGE_SIZE - start / PAGE_SIZE)
    (start / PAGE_SIZE * PAGE_SIZE) s

/-! ## Sample machines -/

/-- A configuration with the x86-64 memory layout: the direct map at
`PAGE_OFFSET`, 64 TB of it, the kernel image (here 32 MB) at
`__START_KERNEL_map`, the modules above it, one shadow byte for 8 bytes. -/
def sample_config : Config where
  KASAN_SHADOW_OFFSET := 0xdffffc0000000000
  KASAN_SHADOW_SCALE_SHIFT := 3
  PAGE_OFFSET := 0xffff880000000000
  MAXMEM := 2 ^ 46
  __START_KERNEL_map := 0xffffffff80000000
  _end := 0xffffffff82000000
  MODULES_VADDR := 0xffffffffa0000000
  pfn_to_kaddr := fun pfn => (pfn * PAGE_SIZE + 0xffff880000000000) % WORD

/-- The tables as the earliest bring-up leaves them: every top-level entry
points to the provisional table, which leads to the poisoned page (all of
them page 0 here). -/
def provisional_state (oom : Nat → Bool) : State where
  pgd := fun _ => some 0
  pud := fun t _ => if t = zero_pud then some zero_pmd else if t = 0 then some 0 else none
  pmd := fun t _ => if t = zero_pmd then some zero_pte else if t = 0 then some 0 else none
  pte := fun t _ => if t = zero_pte then some empty_zero_page else if t = 0 then some 0 else none
  brk := 5
  calls := 0
  oom := oom

/-- The machine when `kasan_init` is entered. -/
def provisional_boot (oom : Nat → Bool) : Boot where
  mm := provisional_state oom
  early_level4_pgt := fun _ => none
  cr3 := Cr3.init_level4_pgt
  poisoned_page := fun _ => 0xf9
  kasan_depth := 1
  log := []

/-- The events of the steps that come before and in the loop over `pfn_mapped`
(steps 2 to 5 of the boot sequence). -/
def Event.early : Event → Bool
  | .vm_area_add_early => true
  | .load_cr3_early => true
  | .clear_direct_map => true
  | .map_range _ => true
  | _ => false

/-- The provisional tables after step 4 of `kasan_init` under `sample_config`:
the top-level entries of the shadow of the direct map are cleared. -/
def direct_cleared (oom : Nat → Bool) : State :=
  (clear_zero_shadow_mapping (kasan_mem_to_shadow sample_config sample_config.PAGE_OFFSET)
    (kasan_mem_to_shadow sample_config
      ((sample_config.PAGE_OFFSET + sample_config.MAXMEM) % WORD))
    (provisional_state oom)).getD (provisional_state oom)

/-- The layout of `sample_config` with a kernel image of 32 KB and the module
area shrunk to the last 64 KB of the address space, so that the windows of
steps 7 and 8 are one and two shadow pages. -/
def small_config : Config :=
  { sample_config with _end := 0xffffffff80008000, MODULES_VADDR := 0xffffffffffff0000 }

/-- The machine after `kasan_init` under `small_config`, with one reported
range of 8 page frames and an allocator that does not fail. -/
def small_done : Boot :=
  match kasan_init small_config vmemmap_populate [⟨0, 8⟩, ⟨0, 0⟩]
      (provisional_boot (fun _ => false)) with
  | .done b => b
  | _ => provisional_boot (fun _ => false)

/-! ## Well-formed states and the extension order -/

/-- Pages below `brk` are in use, the placeholder pages among them, and every
table in use points to pages in use: the allocator hands out unused pages. -/
structure Inv (s : State) : Prop where
  hbrk : empty_zero_page < s.brk
  hpgd : ∀ i p, s.pgd i = some p → p < s.brk
  hpud : ∀ t i p, t < s.brk → s.pud t i = some p → p < s.brk
  hpmd : ∀ t i p, t < s.brk → s.pmd t i = some p → p < s.brk

/-- State `s2` extends `s1`: every mapped entry of a table in use is kept as it is,
and a leaf entry only ever receives the zero page. -/
structure Ext (s1 s2 : State) : Prop where
  brk_le : s1.brk ≤ s2.brk
  calls_le : s1.calls ≤ s2.calls
  oom_eq : s2.oom = s1.oom
  pgd : ∀ i p, s1.pgd i = some p → s2.pgd i = some p
  pud : ∀ t i p, t < s1.brk → s1.pud t i = some p → s2.pud t i = some p
  pmd : ∀ t i p, t < s1.brk → s1.pmd t i = some p → s2.pmd t i = some p
  pte : ∀ t i p, t < s1.brk → s1.pte t i = some p → s2.pte t i = some p
  leaf : ∀ t i, s2.pte t i = s1.pte t i ∨ s2.pte t i = some empty_zero_page ∨
    s2.pte t i = none

theorem Ext.refl (s : State) : Ext s s :=
  ⟨le_rfl, le_rfl, rfl, fun _ _ h => h, fun _ _ _ _ h => h, fun _ _ _ _ h => h,
    fun _ _ _ _ h => h, fun _ _ => Or.inl rfl⟩

theorem Ext.trans {s1 s2 s3 : State} (h12 : Ext s1 s2) (h23 : Ext s2 s3) : Ext s1 s3 where
  brk_le := le_trans h12.brk_le h23.brk_le
  calls_le := le_trans h12.calls_le h23.calls_le
  oom_eq := h23.oom_eq.trans h12.oom_eq
  pgd := fun i p h => h23.pgd i p (h12.pgd i p h)
  pud := fun t i p ht h => h23.pud t i p (lt_of_lt_of_le ht h12.brk_le) (h12.pud t i p ht h)
  pmd := fun t i p ht h => h23.pmd t i p (lt_of_lt_of_le ht h12.brk_le) (h12.pmd t i p ht h)
  pte := fun t i p ht h => h23.pte t i p (lt_of_lt_of_le ht h12.brk_le) (h12.pte t i p ht h)
  leaf := by
    intro t i
    rcases h23.leaf t i with h | h | h
    · rw [h]; exact h12.leaf t i
    · exact Or.inr (Or.inl h)
    · exact Or.inr (Or.inr h)

theorem upd_same (f : Nat → Nat → Option Nat) (t i : Nat) (v : Option Nat) :
    Function.update f t (Function.update (f t) i v) t i = v := by
  simp

theorem upd_other (f : Nat → Nat → Option Nat) (t i t2 i2 : Nat) (v : Option Nat)
    (h : ¬ (t2 = t ∧ i2 = i)) :
    Function.update f t (Function.update (f t) i v) t2 i2 = f t2 i2 := by
  by_cases ht : t2 = t
  · subst ht
    have hi : i2 ≠ i := fun hi => h ⟨rfl, hi⟩
    simp [Function.update_noteq hi]
  · simp [Function.update_noteq ht]

theorem upd_cases (f : Nat → Nat → Option Nat) (t i t2 i2 : Nat) (v : Option Nat) :
    (t2 = t ∧ i2 = i ∧ Function.update f t (Function.update (f t) i v) t2 i2 = v) ∨
    (¬ (t2 = t ∧ i2 = i) ∧
      Function.update f t (Function.update (f t) i v) t2 i2 = f t2 i2) := by
  by_cases h : t2 = t ∧ i2 = i
  · obtain ⟨rfl, rfl⟩ := h
    exact Or.inl ⟨rfl, rfl, upd_same f _ _ v⟩
  · exact Or.inr ⟨h, upd_other f t i t2 i2 v h⟩

/-! ## The primitive steps keep the invariant and extend the state -/

theorem alloc_fail (s : State) (h : s.oom s.calls = true) :
    vmemmap_alloc_block s = (none, { s with calls := s.calls + 1 }) := by
  simp [vmemmap_alloc_block, h]

theorem alloc_ok (s : State) (h : s.oom s.calls = false) :
    vmemmap_alloc_block s = (some s.brk,
      { s with pud := Function.update s.pud s.brk (fun _ => none),
               pmd := Function.update s.pmd s.brk (fun _ => none),
               pte := Function.update s.pte s.brk (fun _ => none),
               brk := s.brk + 1, calls := s.calls + 1 }) := by
  simp [vmemmap_alloc_block, h]

theorem upd_row_lt (f : Nat → Nat → Option Nat) (b t i : Nat) (h : t < b) :
    Function.update f b (fun _ => none) t i = f t i := by
  rw [Function.update_noteq (Nat.ne_of_lt h)]

theorem upd_row_cases (f : Nat → Nat → Option Nat) (b t i : Nat) :
    Function.update f b (fun _ => none) t i = f t i ∨
    Function.update f b (fun _ => none) t i = none := by
  by_cases h : t = b
  · subst h; right; simp
  · left; rw [Function.update_noteq h]

theorem alloc_inv_ext (s : State) (h : Inv s) :
    Inv (vmemmap_alloc_block s).2 ∧ Ext s (vmemmap_alloc_block s).2 := by
  cases ho : s.oom s.calls
  · rw [alloc_ok s ho]
    refine ⟨⟨Nat.lt_succ_of_lt h.hbrk, fun i p hp => Nat.lt_succ_of_lt (h.hpgd i p hp), ?_, ?_⟩,
      ⟨Nat.le_succ _, Nat.le_succ _, rfl, fun _ _ hp => hp, ?_, ?_, ?_, ?_⟩⟩
    · intro t i p _ hp
      rcases upd_row_cases s.pud s.brk t i with h1 | h1
      · by_cases htb : t = s.brk
        · subst htb; simp at hp
        · have hp2 : s.pud t i = some p := by
            simpa [Function.update_noteq htb] using hp
          have : t < s.brk := by
            have : t < s.brk + 1 := by assumption
            omega
          exact Nat.lt_succ_of_lt (h.hpud t i p this hp2)
      · simp only at hp; rw [h1] at hp; cases hp
    · intro t i p _ hp
      by_cases htb : t = s.brk
      · subst htb; simp at hp
      · have hp2 : s.pmd t i = some p := by
          simpa [Function.update_noteq htb] using hp
        have : t < s.brk := by
          have : t < s.brk + 1 := by assumption
          omega
        exact Nat.lt_succ_of_lt (h.hpmd t i p this hp2)
    · intro t i p ht hp
      simp only; rw [upd_row_lt _ _ _ _ ht]; exact hp
    · intro t i p ht hp
      simp only; rw [upd_row_lt _ _ _ _ ht]; exact hp
    · intro t i p ht hp
      simp only; rw [upd_row_lt _ _ _ _ ht]; exact hp
    · intro t i
      rcases upd_row_cases s.pte s.brk t i with h1 | h1
      · exact Or.inl h1
      · exact Or.inr (Or.inr h1)
  · rw [alloc_fail s ho]
    exact ⟨⟨h.hbrk, h.hpgd, h.hpud, h.hpmd⟩, ⟨le_rfl, Nat.le_succ _, rfl, fun _ _ hp => hp,
      fun _ _ _ _ hp => hp, fun _ _ _ _ hp => hp, fun _ _ _ _ hp => hp, fun _ _ => Or.inl rfl⟩⟩

theorem alloc_some (s : State) (p : Nat) (h : (vmemmap_alloc_block s).1 = some p) :
    p < (vmemmap_alloc_block s).2.brk ∧ (vmemmap_alloc_block s).2.pgd = s.pgd ∧
    (∀ t i, t < s.brk → (vmemmap_alloc_block s).2.pud t i = s.pud t i) ∧
    (∀ t i, t < s.brk → (vmemmap_alloc_block s).2.pmd t i = s.pmd t i) := by
  cases ho : s.oom s.calls
  · rw [alloc_ok s ho] at h ⊢
    simp only [Option.some.injEq] at h
    subst h
    exact ⟨Nat.lt_succ_self _, rfl, fun t i ht => upd_row_lt _ _ _ _ ht,
      fun t i ht => upd_row_lt _ _ _ _ ht⟩
  · rw [alloc_fail s ho] at h; cases h

theorem set_pgd_inv_ext (s : State) (h : Inv s) (i v : Nat) (hn : s.pgd i = none)
    (hv : v < s.brk) : Inv (set_pgd i v s) ∧ Ext s (set_pgd i v s) := by
  refine ⟨⟨h.hbrk, ?_, h.hpud, h.hpmd⟩, ⟨le_rfl, le_rfl, rfl, ?_, fun _ _ _ _ hp => hp,
    fun _ _ _ _ hp => hp, fun _ _ _ _ hp => hp, fun _ _ => Or.inl rfl⟩⟩
  · intro j p hp
    by_cases hj : j = i
    · subst hj
      simp [set_pgd] at hp
      subst hp; exact hv
    · simp [set_pgd, Function.update_noteq hj] at hp
      exact h.hpgd j p hp
  · intro j p hp
    by_cases hj : j = i
    · subst hj; rw [hn] at hp; cases hp
    · simpa [set_pgd, Function.update_noteq hj] using hp

theorem set_pud_inv_ext (s : State) (h : Inv s) (pud : Nat × Nat) (v : Nat)
    (hn : s.pud pud.1 pud.2 = none) (hv : v < s.brk) :
    Inv (set_pud pud v s) ∧ Ext s (set_pud pud v s) := by
  refine ⟨⟨h.hbrk, h.hpgd, ?_, h.hpmd⟩, ⟨le_rfl, le_rfl, rfl, fun _ _ hp => hp, ?_,
    fun _ _ _ _ hp => hp, fun _ _ _ _ hp => hp, fun _ _ => Or.inl rfl⟩⟩
  · intro t j p ht hp
    rcases upd_cases s.pud pud.1 pud.2 t j (some v) with ⟨_, _, h1⟩ | ⟨_, h1⟩
    · simp only [set_pud] at hp; rw [h1] at hp
      simp only [Option.some.injEq] at hp; subst hp; exact hv
    · simp only [set_pud] at hp; rw [h1] at hp
      exact h.hpud t j p ht hp
  · intro t j p _ hp
    rcases upd_cases s.pud pud.1 pud.2 t j (some v) with ⟨h2, h3, _⟩ | ⟨_, h1⟩
    · subst h2; subst h3; rw [hn] at hp; cases hp
    · simp only [set_pud]; rw [h1]; exact hp

theorem set_pmd_inv_ext (s : State) (h : Inv s) (pmd : Nat × Nat) (v : Nat)
    (hn : s.pmd pmd.1 pmd.2 = none) (hv : v < s.brk) :
    Inv (set_pmd pmd v s) ∧ Ext s (set_pmd pmd v s) := by
  refine ⟨⟨h.hbrk, h.hpgd, h.hpud, ?_⟩, ⟨le_rfl, le_rfl, rfl, fun _ _ hp => hp,
    fun _ _ _ _ hp => hp, ?_, fun _ _ _ _ hp => hp, fun _ _ => Or.inl rfl⟩⟩
  · intro t j p ht hp
    rcases upd_cases s.pmd pmd.1 pmd.2 t j (some v) with ⟨_, _, h1⟩ | ⟨_, h1⟩
    · simp only [set_pmd] at hp; rw [h1] at hp
      simp only [Option.some.injEq] at hp; subst hp; exact hv
    · simp only [set_pmd] at hp; rw [h1] at hp
      exact h.hpmd t j p ht hp
  · intro t j p _ hp
    rcases upd_cases s.pmd pmd.1 pmd.2 t j (some v) with ⟨h2, h3, _⟩ | ⟨_, h1⟩
    · subst h2; subst h3; rw [hn] at hp; cases hp
    · simp only [set_pmd]; rw [h1]; exact hp

theorem set_pte_inv_ext (s : State) (h : Inv s) (pte : Nat × Nat)
    (hn : s.pte pte.1 pte.2 = none) :
    Inv (set_pte pte empty_zero_page s) ∧ Ext s (set_pte pte empty_zero_page s) := by
  refine ⟨⟨h.hbrk, h.hpgd, h.hpud, h.hpmd⟩, ⟨le_rfl, le_rfl, rfl, fun _ _ hp => hp,
    fun _ _ _ _ hp => hp, fun _ _ _ _ hp => hp, ?_, ?_⟩⟩
  · intro t j p _ hp
    rcases upd_cases s.pte pte.1 pte.2 t j (some empty_zero_page) with ⟨h2, h3, _⟩ | ⟨_, h1⟩
    · subst h2; subst h3; rw [hn] at hp; cases hp
    · simp only [set_pte]; rw [h1]; exact hp
  · intro t j
    rcases upd_cases s.pte pte.1 pte.2 t j (some empty_zero_page) with ⟨_, _, h1⟩ | ⟨_, h1⟩
    · exact Or.inr (Or.inl h1)
    · exact Or.inl h1

/-! ## The populate steps -/

theorem alloc_row_none (s : State) (p : Nat) (h : (vmemmap_alloc_block s).1 = some p) :
    (∀ t i, s.pud t i = none → (vmemmap_alloc_block s).2.pud t i = none) ∧
    (∀ t i, s.pmd t i = none → (vmemmap_alloc_block s).2.pmd t i = none) := by
  cases ho : s.oom s.calls
  · rw [alloc_ok s ho]
    constructor
    · intro t i hn
      rcases upd_row_cases s.pud s.brk t i with h1 | h1
      · simp only; rw [h1, hn]
      · exact h1
    · intro t i hn
      rcases upd_row_cases s.pmd s.brk t i with h1 | h1
      · simp only; rw [h1, hn]
      · exact h1
  · rw [alloc_fail s ho] at h; cases h

theorem pgd_populate_spec (addr end_ : Nat) (s : State) (h : Inv s) :
    Inv (kasan_pgd_populate addr end_ s).2 ∧ Ext s (kasan_pgd_populate addr end_ s).2 ∧
    ∀ i, (kasan_pgd_populate addr end_ s).1 = some i →
      i = pgd_index addr ∧ ∃ t, (kasan_pgd_populate addr end_ s).2.pgd i = some t := by
  unfold kasan_pgd_populate
  simp only
  split_ifs with h1 h2
  · have hz : zero_pud < s.brk := lt_trans (by decide) h.hbrk
    obtain ⟨hi, he⟩ := set_pgd_inv_ext s h (pgd_index addr) zero_pud h1.1 hz
    refine ⟨hi, he, ?_⟩
    intro i hi2
    simp only [Option.some.injEq] at hi2
    subst hi2
    exact ⟨rfl, zero_pud, by simp [set_pgd]⟩
  · obtain ⟨hi, he⟩ := alloc_inv_ext s h
    cases hr : vmemmap_alloc_block s with
    | mk r s1 =>
      rw [hr] at hi he
      cases r with
      | none => exact ⟨hi, he, fun i hi2 => by cases hi2⟩
      | some p =>
        have hs := alloc_some s p (by rw [hr])
        rw [hr] at hs
        simp only at hs hi he ⊢
        have hn : s1.pgd (pgd_index addr) = none := by rw [hs.2.1]; exact h2
        obtain ⟨hi3, he3⟩ := set_pgd_inv_ext s1 hi (pgd_index addr) p hn hs.1
        refine ⟨hi3, he.trans he3, ?_⟩
        intro i hi2
        simp only [Option.some.injEq] at hi2
        subst hi2
        exact ⟨rfl, p, by simp [set_pgd]⟩
  · refine ⟨h, Ext.refl s, ?_⟩
    intro i hi2
    simp only [Option.some.injEq] at hi2
    subst hi2
    cases hv : s.pgd (pgd_index addr) with
    | none => exact absurd hv h2
    | some t => exact ⟨rfl, t, rfl⟩

theorem pud_populate_spec (pgd addr end_ : Nat) (s : State) (h : Inv s) :
    Inv (kasan_pud_populate pgd addr end_ s).2 ∧ Ext s (kasan_pud_populate pgd addr end_ s).2 ∧
    ∀ pud, (kasan_pud_populate pgd addr end_ s).1 = some pud →
      pud = (page_of (s.pgd pgd), pud_index addr) ∧
      ∃ t, (kasan_pud_populate pgd addr end_ s).2.pud pud.1 pud.2 = some t := by
  unfold kasan_pud_populate
  simp only
  split_ifs with h1 h2
  · have hz : zero_pmd < s.brk := lt_trans (by decide) h.hbrk
    obtain ⟨hi, he⟩ := set_pud_inv_ext s h (page_of (s.pgd pgd), pud_index addr) zero_pmd h1.1 hz
    refine ⟨hi, he, ?_⟩
    intro i hi2
    simp only [Option.some.injEq] at hi2
    subst hi2
    exact ⟨rfl, zero_pmd, by simp [set_pud]⟩
  · obtain ⟨hi, he⟩ := alloc_inv_ext s h
    cases hr : vmemmap_alloc_block s with
    | mk r s1 =>
      rw [hr] at hi he
      cases r with
      | none => exact ⟨hi, he, fun i hi2 => by cases hi2⟩
      | some p =>
        have hs := alloc_some s p (by rw [hr])
        have hrn := alloc_row_none s p (by rw [hr])
        rw [hr] at hs hrn
        simp only at hs hi he hrn ⊢
        have hn : s1.pud (page_of (s.pgd pgd)) (pud_index addr) = none := hrn.1 _ _ h2
        obtain ⟨hi3, he3⟩ :=
          set_pud_inv_ext s1 hi (page_of (s.pgd pgd), pud_index addr) p hn hs.1
        refine ⟨hi3, he.trans he3, ?_⟩
        intro i hi2
        simp only [Option.some.injEq] at hi2
        subst hi2
        exact ⟨rfl, p, by simp [set_pud]⟩
  · refine ⟨h, Ext.refl s, ?_⟩
    intro i hi2
    simp only [Option.some.injEq] at hi2
    subst hi2
    cases hv : s.pud (page_of (s.pgd pgd)) (pud_index addr) with
    | none => exact absurd hv h2
    | some t => exact ⟨rfl, t, rfl⟩

theorem pmd_populate_spec (pud : Nat × Nat) (addr end_ : Nat) (s : State) (h : Inv s) :
    Inv (kasan_pmd_populate pud addr end_ s).2 ∧ Ext s (kasan_pmd_populate pud addr end_ s).2 ∧
    ∀ pmd, (kasan_pmd_populate pud addr end_ s).1 = some pmd →
      pmd = (page_of (s.pud pud.1 pud.2), pmd_index addr) ∧
      ∃ t, (kasan_pmd_populate pud addr end_ s).2.pmd pmd.1 pmd.2 = some t := by
  unfold kasan_pmd_populate
  simp only
  split_ifs with h1 h2
  · have hz : zero_pte < s.brk := lt_trans (by decide) h.hbrk
    obtain ⟨hi, he⟩ :=
      set_pmd_inv_ext s h (page_of (s.pud pud.1 pud.2), pmd_index addr) zero_pte h1.1 hz
    refine ⟨hi, he, ?_⟩
    intro i hi2
    simp only [Option.some.injEq] at hi2
    subst hi2
    exact ⟨rfl, zero_pte, by simp [set_pmd]⟩
  · obtain ⟨hi, he⟩ := alloc_inv_ext s h
    cases hr : vmemmap_alloc_block s with
    | mk r s1 =>
      rw [hr] at hi he
      cases r with
      | none => exact ⟨hi, he, fun i hi2 => by cases hi2⟩
      | some p =>
        have hs := alloc_some s p (by rw [hr])
        have hrn := alloc_row_none s p (by rw [hr])
        rw [hr] at hs hrn
        simp only at hs hi he hrn ⊢
        have hn : s1.pmd (page_of (s.pud pud.1 pud.2)) (pmd_index addr) = none := hrn.2 _ _ h2
        obtain ⟨hi3, he3⟩ :=
          set_pmd_inv_ext s1 hi (page_of (s.pud pud.1 pud.2), pmd_index addr) p hn hs.1
        refine ⟨hi3, he.trans he3, ?_⟩
        intro i hi2
        simp only [Option.some.injEq] at hi2
        subst hi2
        exact ⟨rfl, p, by simp [set_pmd]⟩
  · refine ⟨h, Ext.refl s, ?_⟩
    intro i hi2
    simp only [Option.some.injEq] at hi2
    subst hi2
    cases hv : s.pmd (page_of (s.pud pud.1 pud.2)) (pmd_index addr) with
    | none => exact absurd hv h2
    | some t => exact ⟨rfl, t, rfl⟩

theorem pte_populate_spec (pmd : Nat × Nat) (addr end_ : Nat) (s : State) (h : Inv s) :
    Inv (kasan_pte_populate pmd addr end_ s).2 ∧ Ext s (kasan_pte_populate pmd addr end_ s).2 ∧
    ∃ t, (kasan_pte_populate pmd addr end_ s).1 =
        some (page_of (s.pmd pmd.1 pmd.2), pte_index addr) ∧
      (kasan_pte_populate pmd addr end_ s).2.pte (page_of (s.pmd pmd.1 pmd.2))
        (pte_index addr) = some t := by
  unfold kasan_pte_populate
  simp only
  split_ifs with h1
  · obtain ⟨hi, he⟩ := set_pte_inv_ext s h (page_of (s.pmd pmd.1 pmd.2), pte_index addr) h1
    exact ⟨hi, he, empty_zero_page, rfl, by simp [set_pte]⟩
  · refine ⟨h, Ext.refl s, ?_⟩
    cases hv : s.pte (page_of (s.pmd pmd.1 pmd.2)) (pte_index addr) with
    | none => exact absurd hv h1
    | some t => exact ⟨t, rfl, rfl⟩

/-! ## The walk and one pass of the loop -/

theorem walk_eq_some (s : State) (a v : Nat) :
    walk s a = some v ↔ ∃ t1 t2 t3, s.pgd (pgd_index a) = some t1 ∧
      s.pud t1 (pud_index a) = some t2 ∧ s.pmd t2 (pmd_index a) = some t3 ∧
      s.pte t3 (pte_index a) = some v := by
  unfold walk
  constructor
  · intro h
    cases h1 : s.pgd (pgd_index a) with
    | none => simp [h1] at h
    | some t1 =>
      cases h2 : s.pud t1 (pud_index a) with
      | none => simp [h1, h2] at h
      | some t2 =>
        cases h3 : s.pmd t2 (pmd_index a) with
        | none => simp [h1, h2, h3] at h
        | some t3 =>
          simp [h1, h2, h3] at h
          exact ⟨t1, t2, t3, rfl, h2, h3, h⟩
  · rintro ⟨t1, t2, t3, h1, h2, h3, h4⟩
    simp [h1, h2, h3, h4]

theorem walk_ext (s s2 : State) (h : Inv s) (he : Ext s s2) (a v : Nat)
    (hw : walk s a = some v) : walk s2 a = some v := by
  rw [walk_eq_some] at hw ⊢
  obtain ⟨t1, t2, t3, h1, h2, h3, h4⟩ := hw
  have b1 := h.hpgd _ _ h1
  have b2 := h.hpud _ _ _ b1 h2
  have b3 := h.hpmd _ _ _ b2 h3
  exact ⟨t1, t2, t3, he.pgd _ _ h1, he.pud _ _ _ b1 h2, he.pmd _ _ _ b2 h3, he.pte _ _ _ b3 h4⟩

theorem body_spec (addr end_ : Nat) (s : State) (h : Inv s) :
    (∀ s1, map_zeroes_body addr end_ s = .ok s1 →
      Inv s1 ∧ Ext s s1 ∧ ∃ v, walk s1 addr = some v) ∧
    (∀ s1, map_zeroes_body addr end_ s = .error s1 → Inv s1 ∧ Ext s s1) := by
  unfold map_zeroes_body
  obtain ⟨ia, ea, pa⟩ := pgd_populate_spec addr end_ s h
  cases ra : kasan_pgd_populate addr end_ s with
  | mk r1 sa =>
  rw [ra] at ia ea pa
  simp only at ia ea pa
  cases r1 with
  | none =>
    refine ⟨fun s1 h1 => (by cases h1), fun s1 h1 => ?_⟩
    simp only [Except.error.injEq] at h1; subst h1; exact ⟨ia, ea⟩
  | some pgd =>
  obtain ⟨hpg, t1, ht1⟩ := pa pgd rfl
  simp only
  obtain ⟨ib, eb, pb⟩ := pud_populate_spec pgd addr end_ sa ia
  cases rb : kasan_pud_populate pgd addr end_ sa with
  | mk r2 sb =>
  rw [rb] at ib eb pb
  simp only at ib eb pb
  cases r2 with
  | none =>
    refine ⟨fun s1 h1 => (by cases h1), fun s1 h1 => ?_⟩
    simp only [Except.error.injEq] at h1; subst h1; exact ⟨ib, ea.trans eb⟩
  | some pud =>
  obtain ⟨hpu, t2, ht2⟩ := pb pud rfl
  simp only
  obtain ⟨ic, ec, pc⟩ := pmd_populate_spec pud addr end_ sb ib
  cases rc : kasan_pmd_populate pud addr end_ sb with
  | mk r3 sc =>
  rw [rc] at ic ec pc
  simp only at ic ec pc
  cases r3 with
  | none =>
    refine ⟨fun s1 h1 => (by cases h1), fun s1 h1 => ?_⟩
    simp only [Except.error.injEq] at h1; subst h1; exact ⟨ic, (ea.trans eb).trans ec⟩
  | some pmd =>
  obtain ⟨hpm, t3, ht3⟩ := pc pmd rfl
  simp only
  obtain ⟨id, ed, v, hr, hv⟩ := pte_populate_spec pmd addr end_ sc ic
  cases rd : kasan_pte_populate pmd addr end_ sc with
  | mk r4 sd =>
  rw [rd] at id ed hr hv
  simp only at id ed hr hv
  subst hr
  simp only
  refine ⟨fun s1 h1 => ?_, fun s1 h1 => (by cases h1)⟩
  simp only [Except.ok.injEq] at h1; subst h1
  refine ⟨id, ((ea.trans eb).trans ec).trans ed, v, ?_⟩
  rw [walk_eq_some]
  subst hpg
  have e1 : page_of (sa.pgd (pgd_index addr)) = t1 := by rw [ht1]; rfl
  rw [e1] at hpu
  subst hpu
  simp only at ht2 hpm
  have e2 : page_of (sb.pud t1 (pud_index addr)) = t2 := by rw [ht2]; rfl
  rw [e2] at hpm
  subst hpm
  simp only at ht3 hv
  have e3 : page_of (sc.pmd t2 (pmd_index addr)) = t3 := by rw [ht3]; rfl
  rw [e3] at hv
  have b1 := ia.hpgd _ _ ht1
  have g1 := eb.pgd _ _ ht1
  have b1b := ib.hpgd _ _ g1
  have g1c := ec.pgd _ _ g1
  have b1c := ic.hpgd _ _ g1c
  have g2c := ec.pud _ _ _ b1b ht2
  have b2c := ic.hpud _ _ _ b1c g2c
  exact ⟨t1, t2, t3, ed.pgd _ _ g1c, ed.pud _ _ _ b1c g2c, ed.pmd _ _ _ b2c ht3, hv⟩

theorem index_page (a b : Nat) (h : a / PAGE_SIZE = b / PAGE_SIZE) :
    pgd_index a = pgd_index b ∧ pud_index a = pud_index b ∧ pmd_index a = pmd_index b ∧
      pte_index a = pte_index b := by
  have e1 : ∀ x, x / PGDIR_SIZE = x / PAGE_SIZE / 2 ^ 27 := by
    intro x; rw [Nat.div_div_eq_div_mul]; rfl
  have e2 : ∀ x, x / PUD_SIZE = x / PAGE_SIZE / 2 ^ 18 := by
    intro x; rw [Nat.div_div_eq_div_mul]; rfl
  have e3 : ∀ x, x / PMD_SIZE = x / PAGE_SIZE / 2 ^ 9 := by
    intro x; rw [Nat.div_div_eq_div_mul]; rfl
  unfold pgd_index pud_index pmd_index pte_index
  rw [e1 a, e1 b, e2 a, e2 b, e3 a, e3 b, h]
  exact ⟨rfl, rfl, rfl, rfl⟩

theorem walk_page (s : State) (a b : Nat) (h : a / PAGE_SIZE = b / PAGE_SIZE) :
    walk s a = walk s b := by
  obtain ⟨h1, h2, h3, h4⟩ := index_page a b h
  unfold walk
  rw [h1, h2, h3, h4]

theorem body_no_oom (addr end_ : Nat) (s : State) (ho : ∀ n, s.oom n = false) :
    ∃ s1, map_zeroes_body addr end_ s = .ok s1 := by
  have ha : ∀ x : State, x.oom = s.oom → (vmemmap_alloc_block x).1 = some x.brk ∧
      (vmemmap_alloc_block x).2.oom = s.oom := by
    intro x hx
    have : x.oom x.calls = false := by rw [hx]; exact ho _
    rw [alloc_ok x this]
    exact ⟨rfl, hx⟩
  have h1 : ∃ i, (kasan_pgd_populate addr end_ s).1 = some i ∧
      (kasan_pgd_populate addr end_ s).2.oom = s.oom := by
    unfold kasan_pgd_populate
    simp only
    split_ifs
    · exact ⟨_, rfl, rfl⟩
    · obtain ⟨e1, e2⟩ := ha s rfl
      cases hr : vmemmap_alloc_block s with
      | mk r s1 =>
        rw [hr] at e1 e2
        simp only at e1 e2
        subst e1
        exact ⟨_, rfl, e2⟩
    · exact ⟨_, rfl, rfl⟩
  have h2 : ∀ (x : State) pgd, x.oom = s.oom → ∃ i, (kasan_pud_populate pgd addr end_ x).1 = some i ∧
      (kasan_pud_populate pgd addr end_ x).2.oom = s.oom := by
    intro x pgd hx
    unfold kasan_pud_populate
    simp only
    split_ifs
    · exact ⟨_, rfl, hx⟩
    · obtain ⟨e1, e2⟩ := ha x hx
      cases hr : vmemmap_alloc_block x with
      | mk r s1 =>
        rw [hr] at e1 e2
        simp only at e1 e2
        subst e1
        exact ⟨_, rfl, e2⟩
    · exact ⟨_, rfl, hx⟩
  have h3 : ∀ (x : State) pud, x.oom = s.oom → ∃ i, (kasan_pmd_populate pud addr end_ x).1 = some i ∧
      (kasan_pmd_populate pud addr end_ x).2.oom = s.oom := by
    intro x pud hx
    unfold kasan_pmd_populate
    simp only
    split_ifs
    · exact ⟨_, rfl, hx⟩
    · obtain ⟨e1, e2⟩ := ha x hx
      cases hr : vmemmap_alloc_block x with
      | mk r s1 =>
        rw [hr] at e1 e2
        simp only at e1 e2
        subst e1
        exact ⟨_, rfl, e2⟩
    · exact ⟨_, rfl, hx⟩
  have h4 : ∀ (x : State) pmd, ∃ i, (kasan_pte_populate pmd addr end_ x).1 = some i := by
    intro x pmd
    unfold kasan_pte_populate
    simp only
    split_ifs
    · exact ⟨_, rfl⟩
    · exact ⟨_, rfl⟩
  unfold map_zeroes_body
  obtain ⟨i1, a1, o1⟩ := h1
  cases r1 : kasan_pgd_populate addr end_ s with
  | mk p1 s1 =>
  rw [r1] at a1 o1
  simp only at a1 o1
  subst a1
  simp only
  obtain ⟨i2, a2, o2⟩ := h2 s1 i1 o1
  cases r2 : kasan_pud_populate i1 addr end_ s1 with
  | mk p2 s2 =>
  rw [r2] at a2 o2
  simp only at a2 o2
  subst a2
  simp only
  obtain ⟨i3, a3, o3⟩ := h3 s2 i2 o2
  cases r3 : kasan_pmd_populate i2 addr end_ s2 with
  | mk p3 s3 =>
  rw [r3] at a3 o3
  simp only at a3 o3
  subst a3
  simp only
  obtain ⟨i4, a4⟩ := h4 s3 i3
  cases r4 : kasan_pte_populate i3 addr end_ s3 with
  | mk p4 s4 =>
  rw [r4] at a4
  simp only at a4
  subst a4
  exact ⟨s4, rfl⟩

/-- A pass over an address whose walk is complete does nothing. -/
theorem body_mapped (addr end_ : Nat) (s : State) (v : Nat) (hw : walk s addr = some v) :
    map_zeroes_body addr end_ s = .ok s := by
  rw [walk_eq_some] at hw
  obtain ⟨t1, t2, t3, h1, h2, h3, h4⟩ := hw
  have e1 : kasan_pgd_populate addr end_ s = (some (pgd_index addr), s) := by
    simp [kasan_pgd_populate, h1]
  have e2 : kasan_pud_populate (pgd_index addr) addr end_ s = (some (t1, pud_index addr), s) := by
    simp [kasan_pud_populate, h1, h2, page_of]
  have e3 : kasan_pmd_populate (t1, pud_index addr) addr end_ s =
      (some (t2, pmd_index addr), s) := by
    simp [kasan_pmd_populate, h2, h3, page_of]
  have e4 : kasan_pte_populate (t2, pmd_index addr) addr end_ s =
      (some (t3, pte_index addr), s) := by
    simp [kasan_pte_populate, h3, h4, page_of]
  simp [map_zeroes_body, e1, e2, e3, e4]

/-! ## The loop of `map_zeroes` -/

theorem loop_inv_ext (end_ : Nat) : ∀ (fuel addr : Nat) (s : State) (r : Int) (s2 : State),
    Inv s → map_zeroes_loop fuel addr end_ s = some (r, s2) → Inv s2 ∧ Ext s s2 := by
  intro fuel
  induction fuel with
  | zero =>
    intro addr s r s2 h hl
    unfold map_zeroes_loop at hl
    split_ifs at hl
    simp only [Option.some.injEq, Prod.mk.injEq] at hl
    obtain ⟨_, rfl⟩ := hl
    exact ⟨h, Ext.refl _⟩
  | succ n ih =>
    intro addr s r s2 h hl
    unfold map_zeroes_loop at hl
    split_ifs at hl with hlt
    · obtain ⟨hok, herr⟩ := body_spec addr end_ s h
      cases hb : map_zeroes_body addr end_ s with
      | error s1 =>
        rw [hb] at hl
        simp only [Option.some.injEq, Prod.mk.injEq] at hl
        obtain ⟨_, rfl⟩ := hl
        exact herr _ hb
      | ok s1 =>
        rw [hb] at hl
        simp only at hl
        obtain ⟨i1, e1, _⟩ := hok _ hb
        obtain ⟨i2, e2⟩ := ih _ _ _ _ i1 hl
        exact ⟨i2, e1.trans e2⟩
    · simp only [Option.some.injEq, Prod.mk.injEq] at hl
      obtain ⟨_, rfl⟩ := hl
      exact ⟨h, Ext.refl _⟩

/-- With an allocator that never fails and no wrap of the address, enough passes
bring the loop to `return 0`, and every address of the window then has a
complete walk. -/
theorem loop_complete (end_ : Nat) (hw : end_ + PAGE_SIZE ≤ WORD) :
    ∀ (fuel addr : Nat) (s : State), Inv s → (∀ n, s.oom n = false) →
      addr % PAGE_SIZE = 0 → (end_ - addr + (PAGE_SIZE - 1)) / PAGE_SIZE ≤ fuel →
      ∃ s2, map_zeroes_loop fuel addr end_ s = some (0, s2) ∧
        ∀ a, addr ≤ a → a < end_ → ∃ v, walk s2 a = some v := by
  intro fuel
  induction fuel with
  | zero =>
    intro addr s _ _ _ hf
    have hge : ¬ addr < end_ := by
      intro hlt
      have : 1 ≤ (end_ - addr + (PAGE_SIZE - 1)) / PAGE_SIZE := by
        rw [Nat.le_div_iff_mul_le (by decide)]
        simp only [PAGE_SIZE] at *
        omega
      omega
    refine ⟨s, ?_, ?_⟩
    · unfold map_zeroes_loop; simp [hge]
    · intro a h1 h2; omega
  | succ n ih =>
    intro addr s h ho hal hf
    unfold map_zeroes_loop
    by_cases hlt : addr < end_
    · simp only [hlt, if_true]
      obtain ⟨s1, hb⟩ := body_no_oom addr end_ s ho
      obtain ⟨i1, e1, v, hv⟩ := (body_spec addr end_ s h).1 s1 hb
      rw [hb]
      simp only
      have hnw : (addr + PAGE_SIZE) % WORD = addr + PAGE_SIZE := by
        apply Nat.mod_eq_of_lt; omega
      rw [hnw]
      have ho1 : ∀ n, s1.oom n = false := by rw [e1.oom_eq]; exact ho
      have hal1 : (addr + PAGE_SIZE) % PAGE_SIZE = 0 := by
        rw [Nat.add_mod_right]; exact hal
      have hf1 : (end_ - (addr + PAGE_SIZE) + (PAGE_SIZE - 1)) / PAGE_SIZE ≤ n := by
        have : end_ - addr + (PAGE_SIZE - 1) = end_ - (addr + PAGE_SIZE) + (PAGE_SIZE - 1) + PAGE_SIZE ∨
            end_ - (addr + PAGE_SIZE) = 0 := by
          simp only [PAGE_SIZE] at *; omega
        rcases this with h3 | h3
        · rw [h3, Nat.add_div_right _ (by decide : 0 < PAGE_SIZE)] at hf
          omega
        · rw [h3]
          have : (0 + (PAGE_SIZE - 1)) / PAGE_SIZE = 0 := by decide
          rw [this]; omega
      obtain ⟨s2, hl, hall⟩ := ih (addr + PAGE_SIZE) s1 i1 ho1 hal1 hf1
      refine ⟨s2, hl, ?_⟩
      intro a ha1 ha2
      by_cases hpage : a < addr + PAGE_SIZE
      · obtain ⟨_, e2⟩ := loop_inv_ext end_ n _ s1 0 s2 i1 hl
        refine ⟨v, ?_⟩
        have hsame : a / PAGE_SIZE = addr / PAGE_SIZE := by
          have h4 : addr = PAGE_SIZE * (addr / PAGE_SIZE) := by
            have := Nat.div_add_mod addr PAGE_SIZE
            omega
          apply Nat.div_eq_of_lt_le
          · rw [Nat.mul_comm]; omega
          · rw [Nat.succ_mul, Nat.mul_comm]; omega
        rw [walk_page s2 a addr hsame]
        exact walk_ext s1 s2 i1 e2 addr v hv
      · exact hall a (by omega) ha2
    · refine ⟨s, by simp [hlt], ?_⟩
      intro a h1 h2; omega

/-- Running the loop again from any later state changes nothing. -/
theorem loop_rerun (end_ : Nat) : ∀ (fuel addr : Nat) (s s2 s3 : State),
    Inv s → map_zeroes_loop fuel addr end_ s = some (0, s2) → Ext s2 s3 →
      map_zeroes_loop fuel addr end_ s3 = some (0, s3) := by
  intro fuel
  induction fuel with
  | zero =>
    intro addr s s2 s3 _ hl _
    unfold map_zeroes_loop at hl ⊢
    split_ifs at hl ⊢
    rfl
  | succ n ih =>
    intro addr s s2 s3 h hl he
    unfold map_zeroes_loop at hl ⊢
    split_ifs at hl ⊢ with hlt
    · cases hb : map_zeroes_body addr end_ s with
      | error s1 =>
        rw [hb] at hl
        simp only [Option.some.injEq, Prod.mk.injEq] at hl
        have := hl.1
        simp [ENOMEM] at this
      | ok s1 =>
        rw [hb] at hl
        simp only at hl
        obtain ⟨i1, _, v, hv⟩ := (body_spec addr end_ s h).1 s1 hb
        obtain ⟨_, e2⟩ := loop_inv_ext end_ n _ s1 0 s2 i1 hl
        have hv3 : walk s3 addr = some v := walk_ext s1 s3 i1 (e2.trans he) addr v hv
        rw [body_mapped addr end_ s3 v hv3]
        exact ih _ s1 s2 s3 i1 hl he
    · rfl

/-! ## Counting allocator calls -/

theorem miss_le_one (o : Option Nat) : miss o ≤ 1 := by
  unfold miss; split_ifs <;> omega

theorem miss_some (v : Nat) : miss (some v) = 0 := by simp [miss]

theorem miss_none : miss none = 1 := by simp [miss]

theorem potential_le (end_ : Nat) (s : State) : potential end_ s ≤ 6 := by
  unfold potential
  have := miss_le_one (walk_pgd s (end_ - 1))
  have := miss_le_one (walk_pgd s (end_ - 1 - PGDIR_SIZE))
  have := miss_le_one (walk_pud s (end_ - 1))
  have := miss_le_one (walk_pud s (end_ - 1 - PUD_SIZE))
  have := miss_le_one (walk_pmd s (end_ - 1))
  have := miss_le_one (walk_pmd s (end_ - 1 - PMD_SIZE))
  omega

theorem walk_pgd_ext (s s2 : State) (he : Ext s s2) (a v : Nat)
    (hw : walk_pgd s a = some v) : walk_pgd s2 a = some v := he.pgd _ _ hw

theorem walk_pud_eq_some (s : State) (a v : Nat) :
    walk_pud s a = some v ↔ ∃ t1, s.pgd (pgd_index a) = some t1 ∧
      s.pud t1 (pud_index a) = some v := by
  unfold walk_pud
  cases h1 : s.pgd (pgd_index a) with
  | none => simp
  | some t1 => simp

theorem walk_pmd_eq_some (s : State) (a v : Nat) :
    walk_pmd s a = some v ↔ ∃ t1 t2, s.pgd (pgd_index a) = some t1 ∧
      s.pud t1 (pud_index a) = some t2 ∧ s.pmd t2 (pmd_index a) = some v := by
  unfold walk_pmd
  cases h1 : walk_pud s a with
  | none =>
    simp only [false_iff, reduceCtorEq]
    rintro ⟨t1, t2, h2, h3, _⟩
    have : walk_pud s a = some t2 := (walk_pud_eq_some s a t2).2 ⟨t1, h2, h3⟩
    rw [h1] at this; cases this
  | some t2 =>
    obtain ⟨t1, h2, h3⟩ := (walk_pud_eq_some s a t2).1 h1
    simp only
    constructor
    · intro h; exact ⟨t1, t2, h2, h3, h⟩
    · rintro ⟨u1, u2, g2, g3, g4⟩
      rw [h2] at g2; cases g2
      rw [h3] at g3; cases g3
      exact g4

theorem walk_pud_ext (s s2 : State) (h : Inv s) (he : Ext s s2) (a v : Nat)
    (hw : walk_pud s a = some v) : walk_pud s2 a = some v := by
  rw [walk_pud_eq_some] at hw ⊢
  obtain ⟨t1, h1, h2⟩ := hw
  exact ⟨t1, he.pgd _ _ h1, he.pud _ _ _ (h.hpgd _ _ h1) h2⟩

theorem walk_pmd_ext (s s2 : State) (h : Inv s) (he : Ext s s2) (a v : Nat)
    (hw : walk_pmd s a = some v) : walk_pmd s2 a = some v := by
  rw [walk_pmd_eq_some] at hw ⊢
  obtain ⟨t1, t2, h1, h2, h3⟩ := hw
  have b1 := h.hpgd _ _ h1
  exact ⟨t1, t2, he.pgd _ _ h1, he.pud _ _ _ b1 h2, he.pmd _ _ _ (h.hpud _ _ _ b1 h2) h3⟩

theorem miss_mono (o o2 : Option Nat) (h : ∀ v, o = some v → o2 = some v) :
    miss o2 ≤ miss o := by
  cases o with
  | none => rw [miss_none]; exact miss_le_one _
  | some v => rw [h v rfl]

theorem miss_pgd_mono (s s2 : State) (he : Ext s s2) (a : Nat) :
    miss (walk_pgd s2 a) ≤ miss (walk_pgd s a) :=
  miss_mono _ _ (walk_pgd_ext s s2 he a)

theorem miss_pud_mono (s s2 : State) (h : Inv s) (he : Ext s s2) (a : Nat) :
    miss (walk_pud s2 a) ≤ miss (walk_pud s a) :=
  miss_mono _ _ (walk_pud_ext s s2 h he a)

theorem miss_pmd_mono (s s2 : State) (h : Inv s) (he : Ext s s2) (a : Nat) :
    miss (walk_pmd s2 a) ≤ miss (walk_pmd s a) :=
  miss_mono _ _ (walk_pmd_ext s s2 h he a)

theorem potential_mono (end_ : Nat) (s s2 : State) (h : Inv s) (he : Ext s s2) :
    potential end_ s2 ≤ potential end_ s := by
  unfold potential
  have := miss_pgd_mono s s2 he (end_ - 1)
  have := miss_pgd_mono s s2 he (end_ - 1 - PGDIR_SIZE)
  have := miss_pud_mono s s2 h he (end_ - 1)
  have := miss_pud_mono s s2 h he (end_ - 1 - PUD_SIZE)
  have := miss_pmd_mono s s2 h he (end_ - 1)
  have := miss_pmd_mono s s2 h he (end_ - 1 - PMD_SIZE)
  omega

theorem walk_pgd_span (s : State) (a b : Nat) (h : a / PGDIR_SIZE = b / PGDIR_SIZE) :
    walk_pgd s a = walk_pgd s b := by
  unfold walk_pgd pgd_index; rw [h]

theorem walk_pud_span (s : State) (a b : Nat) (h : a / PUD_SIZE = b / PUD_SIZE) :
    walk_pud s a = walk_pud s b := by
  have e1 : ∀ x, x / PGDIR_SIZE = x / PUD_SIZE / 2 ^ 9 := by
    intro x; rw [Nat.div_div_eq_div_mul]; rfl
  unfold walk_pud pgd_index pud_index
  rw [e1 a, e1 b, h]

theorem walk_pmd_span (s : State) (a b : Nat) (h : a / PMD_SIZE = b / PMD_SIZE) :
    walk_pmd s a = walk_pmd s b := by
  have e1 : a / PUD_SIZE = b / PUD_SIZE := by
    have e : ∀ x, x / PUD_SIZE = x / PMD_SIZE / 2 ^ 9 := by
      intro x; rw [Nat.div_div_eq_div_mul]; rfl
    rw [e a, e b, h]
  unfold walk_pmd pmd_index
  rw [walk_pud_span s a b e1, h]

theorem span_pgd (addr end_ : Nat) (h1 : addr < end_) (hw : end_ + PGDIR_SIZE ≤ WORD)
    (h2 : ¬ (addr + PGDIR_SIZE) % WORD < end_) :
    addr / PGDIR_SIZE = (end_ - 1) / PGDIR_SIZE ∨
    addr / PGDIR_SIZE = (end_ - 1 - PGDIR_SIZE) / PGDIR_SIZE := by
  simp only [PGDIR_SIZE, WORD] at *
  norm_num at *
  omega

theorem span_pud (addr end_ : Nat) (h1 : addr < end_) (hw : end_ + PGDIR_SIZE ≤ WORD)
    (h2 : ¬ (addr + PUD_SIZE) % WORD < end_) :
    addr / PUD_SIZE = (end_ - 1) / PUD_SIZE ∨
    addr / PUD_SIZE = (end_ - 1 - PUD_SIZE) / PUD_SIZE := by
  simp only [PGDIR_SIZE, PUD_SIZE, WORD] at *
  norm_num at *
  omega

theorem span_pmd (addr end_ : Nat) (h1 : addr < end_) (hw : end_ + PGDIR_SIZE ≤ WORD)
    (h2 : ¬ (addr + PMD_SIZE) % WORD < end_) :
    addr / PMD_SIZE = (end_ - 1) / PMD_SIZE ∨
    addr / PMD_SIZE = (end_ - 1 - PMD_SIZE) / PMD_SIZE := by
  simp only [PGDIR_SIZE, PMD_SIZE, WORD] at *
  norm_num at *
  omega

theorem pot_pgd (end_ addr : Nat) (s s2 : State) (h : Inv s) (he : Ext s s2)
    (hs : addr / PGDIR_SIZE = (end_ - 1) / PGDIR_SIZE ∨
      addr / PGDIR_SIZE = (end_ - 1 - PGDIR_SIZE) / PGDIR_SIZE)
    (h1 : walk_pgd s addr = none) :
    1 ≤ potential end_ s ∧
      ((∃ v, walk_pgd s2 addr = some v) → potential end_ s2 + 1 ≤ potential end_ s) := by
  unfold potential
  have m1 := miss_pgd_mono s s2 he (end_ - 1)
  have m2 := miss_pgd_mono s s2 he (end_ - 1 - PGDIR_SIZE)
  have m3 := miss_pud_mono s s2 h he (end_ - 1)
  have m4 := miss_pud_mono s s2 h he (end_ - 1 - PUD_SIZE)
  have m5 := miss_pmd_mono s s2 h he (end_ - 1)
  have m6 := miss_pmd_mono s s2 h he (end_ - 1 - PMD_SIZE)
  rcases hs with hs | hs
  · have a1 : miss (walk_pgd s (end_ - 1)) = 1 := by
      rw [← walk_pgd_span s addr _ hs, h1, miss_none]
    refine ⟨by omega, ?_⟩
    rintro ⟨v, hv⟩
    have a2 : miss (walk_pgd s2 (end_ - 1)) = 0 := by
      rw [← walk_pgd_span s2 addr _ hs, hv, miss_some]
    omega
  · have a1 : miss (walk_pgd s (end_ - 1 - PGDIR_SIZE)) = 1 := by
      rw [← walk_pgd_span s addr _ hs, h1, miss_none]
    refine ⟨by omega, ?_⟩
    rintro ⟨v, hv⟩
    have a2 : miss (walk_pgd s2 (end_ - 1 - PGDIR_SIZE)) = 0 := by
      rw [← walk_pgd_span s2 addr _ hs, hv, miss_some]
    omega

theorem pot_pud (end_ addr : Nat) (s s2 : State) (h : Inv s) (he : Ext s s2)
    (hs : addr / PUD_SIZE = (end_ - 1) / PUD_SIZE ∨
      addr / PUD_SIZE = (end_ - 1 - PUD_SIZE) / PUD_SIZE)
    (h1 : walk_pud s addr = none) :
    1 ≤ potential end_ s ∧
      ((∃ v, walk_pud s2 addr = some v) → potential end_ s2 + 1 ≤ potential end_ s) := by
  unfold potential
  have m1 := miss_pgd_mono s s2 he (end_ - 1)
  have m2 := miss_pgd_mono s s2 he (end_ - 1 - PGDIR_SIZE)
  have m3 := miss_pud_mono s s2 h he (end_ - 1)
  have m4 := miss_pud_mono s s2 h he (end_ - 1 - PUD_SIZE)
  have m5 := miss_pmd_mono s s2 h he (end_ - 1)
  have m6 := miss_pmd_mono s s2 h he (end_ - 1 - PMD_SIZE)
  rcases hs with hs | hs
  · have a1 : miss (walk_pud s (end_ - 1)) = 1 := by
      rw [← walk_pud_span s addr _ hs, h1, miss_none]
    refine ⟨by omega, ?_⟩
    rintro ⟨v, hv⟩
    have a2 : miss (walk_pud s2 (end_ - 1)) = 0 := by
      rw [← walk_pud_span s2 addr _ hs, hv, miss_some]
    omega
  · have a1 : miss (walk_pud s (end_ - 1 - PUD_SIZE)) = 1 := by
      rw [← walk_pud_span s addr _ hs, h1, miss_none]
    refine ⟨by omega, ?_⟩
    rintro ⟨v, hv⟩
    have a2 : miss (walk_pud s2 (end_ - 1 - PUD_SIZE)) = 0 := by
      rw [← walk_pud_span s2 addr _ hs, hv, miss_some]
    omega

theorem pot_pmd (end_ addr : Nat) (s s2 : State) (h : Inv s) (he : Ext s s2)
    (hs : addr / PMD_SIZE = (end_ - 1) / PMD_SIZE ∨
      addr / PMD_SIZE = (end_ - 1 - PMD_SIZE) / PMD_SIZE)
    (h1 : walk_pmd s addr = none) :
    1 ≤ potential end_ s ∧
      ((∃ v, walk_pmd s2 addr = some v) → potential end_ s2 + 1 ≤ potential end_ s) := by
  unfold potential
  have m1 := miss_pgd_mono s s2 he (end_ - 1)
  have m2 := miss_pgd_mono s s2 he (end_ - 1 - PGDIR_SIZE)
  have m3 := miss_pud_mono s s2 h he (end_ - 1)
  have m4 := miss_pud_mono s s2 h he (end_ - 1 - PUD_SIZE)
  have m5 := miss_pmd_mono s s2 h he (end_ - 1)
  have m6 := miss_pmd_mono s s2 h he (end_ - 1 - PMD_SIZE)
  rcases hs with hs | hs
  · have a1 : miss (walk_pmd s (end_ - 1)) = 1 := by
      rw [← walk_pmd_span s addr _ hs, h1, miss_none]
    refine ⟨by omega, ?_⟩
    rintro ⟨v, hv⟩
    have a2 : miss (walk_pmd s2 (end_ - 1)) = 0 := by
      rw [← walk_pmd_span s2 addr _ hs, hv, miss_some]
    omega
  · have a1 : miss (walk_pmd s (end_ - 1 - PMD_SIZE)) = 1 := by
      rw [← walk_pmd_span s addr _ hs, h1, miss_none]
    refine ⟨by omega, ?_⟩
    rintro ⟨v, hv⟩
    have a2 : miss (walk_pmd s2 (end_ - 1 - PMD_SIZE)) = 0 := by
      rw [← walk_pmd_span s2 addr _ hs, hv, miss_some]
    omega

theorem alloc_calls (s : State) : (vmemmap_alloc_block s).2.calls = s.calls + 1 := by
  unfold vmemmap_alloc_block; split_ifs <;> rfl

theorem pgd_populate_calls (addr end_ : Nat) (s : State) :
    ((kasan_pgd_populate addr end_ s).2.calls = s.calls ∧
      (kasan_pgd_populate addr end_ s).1 ≠ none) ∨
    (s.pgd (pgd_index addr) = none ∧ ¬ (addr + PGDIR_SIZE) % WORD < end_ ∧
      (kasan_pgd_populate addr end_ s).2.calls = s.calls + 1) := by
  unfold kasan_pgd_populate
  simp only
  split_ifs with h1 h2
  · left; exact ⟨rfl, by simp⟩
  · right
    refine ⟨h2, fun h3 => h1 ⟨h2, h3⟩, ?_⟩
    have hc := alloc_calls s
    cases hr : vmemmap_alloc_block s with
    | mk r s1 =>
      rw [hr] at hc
      cases r <;> exact hc
  · left; exact ⟨rfl, by simp⟩

theorem pud_populate_calls (pgd addr end_ : Nat) (s : State) :
    ((kasan_pud_populate pgd addr end_ s).2.calls = s.calls ∧
      (kasan_pud_populate pgd addr end_ s).1 ≠ none) ∨
    (s.pud (page_of (s.pgd pgd)) (pud_index addr) = none ∧
      ¬ (addr + PUD_SIZE) % WORD < end_ ∧
      (kasan_pud_populate pgd addr end_ s).2.calls = s.calls + 1) := by
  unfold kasan_pud_populate
  simp only
  split_ifs with h1 h2
  · left; exact ⟨rfl, by simp⟩
  · right
    refine ⟨h2, fun h3 => h1 ⟨h2, h3⟩, ?_⟩
    have hc := alloc_calls s
    cases hr : vmemmap_alloc_block s with
    | mk r s1 =>
      rw [hr] at hc
      cases r <;> exact hc
  · left; exact ⟨rfl, by simp⟩

theorem pmd_populate_calls (pud : Nat × Nat) (addr end_ : Nat) (s : State) :
    ((kasan_pmd_populate pud addr end_ s).2.calls = s.calls ∧
      (kasan_pmd_populate pud addr end_ s).1 ≠ none) ∨
    (s.pmd (page_of (s.pud pud.1 pud.2)) (pmd_index addr) = none ∧
      ¬ (addr + PMD_SIZE) % WORD < end_ ∧
      (kasan_pmd_populate pud addr end_ s).2.calls = s.calls + 1) := by
  unfold kasan_pmd_populate
  simp only
  split_ifs with h1 h2
  · left; exact ⟨rfl, by simp⟩
  · right
    refine ⟨h2, fun h3 => h1 ⟨h2, h3⟩, ?_⟩
    have hc := alloc_calls s
    cases hr : vmemmap_alloc_block s with
    | mk r s1 =>
      rw [hr] at hc
      cases r <;> exact hc
  · left; exact ⟨rfl, by simp⟩

theorem pte_populate_calls (pmd : Nat × Nat) (addr end_ : Nat) (s : State) :
    (kasan_pte_populate pmd addr end_ s).2.calls = s.calls := by
  unfold kasan_pte_populate
  simp only
  split_ifs <;> rfl

theorem pgd_cost (addr end_ : Nat) (s : State) (h : Inv s) (hlt : addr < end_)
    (hw : end_ + PGDIR_SIZE ≤ WORD) :
    (∀ i, (kasan_pgd_populate addr end_ s).1 = some i →
      (kasan_pgd_populate addr end_ s).2.calls + potential end_ (kasan_pgd_populate addr end_ s).2
        ≤ s.calls + potential end_ s) ∧
    ((kasan_pgd_populate addr end_ s).1 = none →
      (kasan_pgd_populate addr end_ s).2.calls ≤ s.calls + potential end_ s) := by
  obtain ⟨_, he, sp⟩ := pgd_populate_spec addr end_ s h
  have hm := potential_mono end_ s _ h he
  rcases pgd_populate_calls addr end_ s with ⟨hc, hn⟩ | ⟨hnone, hB, hc⟩
  · exact ⟨fun _ _ => by omega, fun h0 => absurd h0 hn⟩
  · obtain ⟨hpos, hdrop⟩ := pot_pgd end_ addr s _ h he (span_pgd addr end_ hlt hw hB) hnone
    refine ⟨fun i hi => ?_, fun _ => by omega⟩
    obtain ⟨rfl, t, ht⟩ := sp i hi
    have := hdrop ⟨t, ht⟩
    omega

theorem pud_cost (pgd addr end_ : Nat) (s : State) (h : Inv s) (hlt : addr < end_)
    (hw : end_ + PGDIR_SIZE ≤ WORD) (t1 : Nat) (hpgd : pgd = pgd_index addr)
    (hp1 : s.pgd (pgd_index addr) = some t1) :
    (∀ i, (kasan_pud_populate pgd addr end_ s).1 = some i →
      (kasan_pud_populate pgd addr end_ s).2.calls +
        potential end_ (kasan_pud_populate pgd addr end_ s).2 ≤ s.calls + potential end_ s) ∧
    ((kasan_pud_populate pgd addr end_ s).1 = none →
      (kasan_pud_populate pgd addr end_ s).2.calls ≤ s.calls + potential end_ s) := by
  subst hpgd
  obtain ⟨_, he, sp⟩ := pud_populate_spec (pgd_index addr) addr end_ s h
  have hm := potential_mono end_ s _ h he
  have e1 : page_of (s.pgd (pgd_index addr)) = t1 := by rw [hp1]; rfl
  rcases pud_populate_calls (pgd_index addr) addr end_ s with ⟨hc, hn⟩ | ⟨hnone, hB, hc⟩
  · exact ⟨fun _ _ => by omega, fun h0 => absurd h0 hn⟩
  · rw [e1] at hnone
    have hwn : walk_pud s addr = none := by
      unfold walk_pud; rw [hp1]; exact hnone
    obtain ⟨hpos, hdrop⟩ := pot_pud end_ addr s _ h he (span_pud addr end_ hlt hw hB) hwn
    refine ⟨fun i hi => ?_, fun _ => by omega⟩
    obtain ⟨rfl, t, ht⟩ := sp i hi
    rw [e1] at ht
    have := hdrop ⟨t, (walk_pud_eq_some _ _ _).2 ⟨t1, he.pgd _ _ hp1, ht⟩⟩
    omega

theorem pmd_cost (pud : Nat × Nat) (addr end_ : Nat) (s : State) (h : Inv s)
    (hlt : addr < end_) (hw : end_ + PGDIR_SIZE ≤ WORD) (t1 t2 : Nat)
    (hpud : pud = (t1, pud_index addr)) (hp1 : s.pgd (pgd_index addr) = some t1)
    (hp2 : s.pud t1 (pud_index addr) = some t2) :
    (∀ i, (kasan_pmd_populate pud addr end_ s).1 = some i →
      (kasan_pmd_populate pud addr end_ s).2.calls +
        potential end_ (kasan_pmd_populate pud addr end_ s).2 ≤ s.calls + potential end_ s) ∧
    ((kasan_pmd_populate pud addr end_ s).1 = none →
      (kasan_pmd_populate pud addr end_ s).2.calls ≤ s.calls + potential end_ s) := by
  subst hpud
  obtain ⟨_, he, sp⟩ := pmd_populate_spec (t1, pud_index addr) addr end_ s h
  have hm := potential_mono end_ s _ h he
  have e1 : page_of (s.pud t1 (pud_index addr)) = t2 := by rw [hp2]; rfl
  simp only at sp
  have hwp : walk_pud s addr = some t2 := (walk_pud_eq_some _ _ _).2 ⟨t1, hp1, hp2⟩
  rcases pmd_populate_calls (t1, pud_index addr) addr end_ s with ⟨hc, hn⟩ | ⟨hnone, hB, hc⟩
  · exact ⟨fun _ _ => by omega, fun h0 => absurd h0 hn⟩
  · simp only at hnone
    rw [e1] at hnone
    have hwn : walk_pmd s addr = none := by
      unfold walk_pmd; rw [hwp]; exact hnone
    obtain ⟨hpos, hdrop⟩ := pot_pmd end_ addr s _ h he (span_pmd addr end_ hlt hw hB) hwn
    refine ⟨fun i hi => ?_, fun _ => by omega⟩
    obtain ⟨rfl, t, ht⟩ := sp i hi
    rw [e1] at ht
    have b1 := h.hpgd _ _ hp1
    have := hdrop ⟨t, (walk_pmd_eq_some _ _ _).2
      ⟨t1, t2, he.pgd _ _ hp1, he.pud _ _ _ b1 hp2, ht⟩⟩
    omega

theorem pte_cost (pmd : Nat × Nat) (addr end_ : Nat) (s : State) (h : Inv s) :
    (kasan_pte_populate pmd addr end_ s).2.calls +
      potential end_ (kasan_pte_populate pmd addr end_ s).2 ≤ s.calls + potential end_ s := by
  obtain ⟨_, he, _⟩ := pte_populate_spec pmd addr end_ s h
  have hm := potential_mono end_ s _ h he
  have := pte_populate_calls pmd addr end_ s
  omega

theorem body_cost (addr end_ : Nat) (s : State) (h : Inv s) (hlt : addr < end_)
    (hw : end_ + PGDIR_SIZE ≤ WORD) :
    (∀ s1, map_zeroes_body addr end_ s = .ok s1 →
      s1.calls + potential end_ s1 ≤ s.calls + potential end_ s) ∧
    (∀ s1, map_zeroes_body addr end_ s = .error s1 →
      s1.calls ≤ s.calls + potential end_ s) := by
  unfold map_zeroes_body
  obtain ⟨ia, ea, pa⟩ := pgd_populate_spec addr end_ s h
  obtain ⟨ca, fa⟩ := pgd_cost addr end_ s h hlt hw
  cases ra : kasan_pgd_populate addr end_ s with
  | mk r1 sa =>
  rw [ra] at ia ea pa ca fa
  simp only at ia ea pa ca fa
  cases r1 with
  | none =>
    refine ⟨fun s1 h1 => (by cases h1), fun s1 h1 => ?_⟩
    simp only [Except.error.injEq] at h1; subst h1; exact fa rfl
  | some pgd =>
  obtain ⟨hpg, t1, ht1⟩ := pa pgd rfl
  have ca := ca pgd rfl
  subst hpg
  simp only
  obtain ⟨ib, eb, pb⟩ := pud_populate_spec (pgd_index addr) addr end_ sa ia
  obtain ⟨cb, fb⟩ := pud_cost (pgd_index addr) addr end_ sa ia hlt hw t1 rfl ht1
  cases rb : kasan_pud_populate (pgd_index addr) addr end_ sa with
  | mk r2 sb =>
  rw [rb] at ib eb pb cb fb
  simp only at ib eb pb cb fb
  cases r2 with
  | none =>
    refine ⟨fun s1 h1 => (by cases h1), fun s1 h1 => ?_⟩
    simp only [Except.error.injEq] at h1; subst h1
    have := fb rfl
    have := potential_mono end_ s sa h ea
    omega
  | some pud =>
  obtain ⟨hpu, t2, ht2⟩ := pb pud rfl
  have cb := cb pud rfl
  have e1 : page_of (sa.pgd (pgd_index addr)) = t1 := by rw [ht1]; rfl
  rw [e1] at hpu
  subst hpu
  simp only at ht2
  simp only
  have g1 := eb.pgd _ _ ht1
  obtain ⟨ic, ec, _⟩ := pmd_populate_spec (t1, pud_index addr) addr end_ sb ib
  obtain ⟨cc, fc⟩ := pmd_cost (t1, pud_index addr) addr end_ sb ib hlt hw t1 t2 rfl g1 ht2
  cases rc : kasan_pmd_populate (t1, pud_index addr) addr end_ sb with
  | mk r3 sc =>
  rw [rc] at ic ec cc fc
  simp only at ic ec cc fc
  cases r3 with
  | none =>
    refine ⟨fun s1 h1 => (by cases h1), fun s1 h1 => ?_⟩
    simp only [Except.error.injEq] at h1; subst h1
    have := fc rfl
    have := potential_mono end_ sa sb ia eb
    omega
  | some pmd =>
  have cc := cc pmd rfl
  simp only
  have cd := pte_cost pmd addr end_ sc ic
  cases rd : kasan_pte_populate pmd addr end_ sc with
  | mk r4 sd =>
  rw [rd] at cd
  simp only at cd
  cases r4 with
  | none =>
    refine ⟨fun s1 h1 => (by cases h1), fun s1 h1 => ?_⟩
    simp only [Except.error.injEq] at h1; subst h1
    have := potential_mono end_ sc sd ic (by
      have := (pte_populate_spec pmd addr end_ sc ic).2.1
      rw [rd] at this; exact this)
    omega
  | some pte =>
    refine ⟨fun s1 h1 => ?_, fun s1 h1 => (by cases h1)⟩
    simp only [Except.ok.injEq] at h1; subst h1
    omega

theorem loop_cost (end_ : Nat) (hw : end_ + PGDIR_SIZE ≤ WORD) :
    ∀ (fuel addr : Nat) (s : State) (r : Int) (s2 : State), Inv s →
      map_zeroes_loop fuel addr end_ s = some (r, s2) →
      s2.calls ≤ s.calls + potential end_ s := by
  intro fuel
  induction fuel with
  | zero =>
    intro addr s r s2 _ hl
    unfold map_zeroes_loop at hl
    split_ifs at hl
    simp only [Option.some.injEq, Prod.mk.injEq] at hl
    obtain ⟨_, rfl⟩ := hl
    omega
  | succ n ih =>
    intro addr s r s2 h hl
    unfold map_zeroes_loop at hl
    split_ifs at hl with hlt
    · obtain ⟨hok, herr⟩ := body_cost addr end_ s h hlt hw
      cases hb : map_zeroes_body addr end_ s with
      | error s1 =>
        rw [hb] at hl
        simp only [Option.some.injEq, Prod.mk.injEq] at hl
        obtain ⟨_, rfl⟩ := hl
        exact herr _ hb
      | ok s1 =>
        rw [hb] at hl
        simp only at hl
        obtain ⟨i1, _, _⟩ := (body_spec addr end_ s h).1 _ hb
        have := ih _ _ _ _ i1 hl
        have := hok _ hb
        omega
    · simp only [Option.some.injEq, Prod.mk.injEq] at hl
      obtain ⟨_, rfl⟩ := hl
      omega

/-! ## Where private subtables can be installed -/

theorem priv_refl (end_ : Nat) (x : State) : Priv end_ x x :=
  ⟨fun _ _ h hn => absurd h hn, fun _ _ _ h hn => absurd h hn, fun _ _ _ h hn => absurd h hn⟩

theorem priv_trans {end_ : Nat} {x y z : State} (hxy : Priv end_ x y) (hyz : Priv end_ y z)
    (iy : Inv y) (eyz : Ext y z) : Priv end_ x z where
  pgd := by
    intro i p hz hx
    by_cases hy : y.pgd i = some p
    · exact hxy.pgd i p hy hx
    · exact hyz.pgd i p hz hy
  pud := by
    intro t j p hz hx
    by_cases hy : y.pud t j = some p
    · rcases hxy.pud t j p hy hx with h | ⟨b, hb, hw, hj⟩
      · exact Or.inl h
      · exact Or.inr ⟨b, hb, walk_pgd_ext y z eyz b t hw, hj⟩
    · exact hyz.pud t j p hz hy
  pmd := by
    intro t j p hz hx
    by_cases hy : y.pmd t j = some p
    · rcases hxy.pmd t j p hy hx with h | ⟨b, hb, hw, hj⟩
      · exact Or.inl h
      · exact Or.inr ⟨b, hb, walk_pud_ext y z iy eyz b t hw, hj⟩
    · exact hyz.pmd t j p hz hy

theorem priv_alloc (end_ : Nat) (x : State) : Priv end_ x (vmemmap_alloc_block x).2 := by
  cases ho : x.oom x.calls
  · rw [alloc_ok x ho]
    refine ⟨fun _ _ h hn => absurd h hn, ?_, ?_⟩
    · intro t j p h hn
      exfalso
      rcases upd_row_cases x.pud x.brk t j with h1 | h1
      · simp only at h; rw [h1] at h; exact hn h
      · simp only at h; rw [h1] at h; cases h
    · intro t j p h hn
      exfalso
      rcases upd_row_cases x.pmd x.brk t j with h1 | h1
      · simp only at h; rw [h1] at h; exact hn h
      · simp only at h; rw [h1] at h; cases h
  · rw [alloc_fail x ho]
    exact ⟨fun _ _ h hn => absurd h hn, fun _ _ _ h hn => absurd h hn,
      fun _ _ _ h hn => absurd h hn⟩

theorem priv_set_pgd (end_ : Nat) (x : State) (i v : Nat)
    (hv : v = zero_pud ∨ ∃ b, (b = end_ - 1 ∨ b = end_ - 1 - PGDIR_SIZE) ∧ i = pgd_index b) :
    Priv end_ x (set_pgd i v x) := by
  refine ⟨?_, fun _ _ _ h hn => absurd h hn, fun _ _ _ h hn => absurd h hn⟩
  intro j p h hn
  by_cases hj : j = i
  · subst hj
    simp only [set_pgd, Function.update_same, Option.some.injEq] at h
    subst h
    exact hv
  · simp only [set_pgd, Function.update_noteq hj] at h
    exact absurd h hn

theorem priv_set_pud (end_ : Nat) (x : State) (pud : Nat × Nat) (v : Nat)
    (hv : v = zero_pmd ∨ ∃ b, (b = end_ - 1 ∨ b = end_ - 1 - PUD_SIZE) ∧
      walk_pgd x b = some pud.1 ∧ pud.2 = pud_index b) :
    Priv end_ x (set_pud pud v x) := by
  refine ⟨fun _ _ h hn => absurd h hn, ?_, fun _ _ _ h hn => absurd h hn⟩
  intro t j p h hn
  rcases upd_cases x.pud pud.1 pud.2 t j (some v) with ⟨h2, h3, h1⟩ | ⟨_, h1⟩
  · simp only [set_pud] at h; rw [h1] at h
    simp only [Option.some.injEq] at h
    subst h; subst h2; subst h3
    exact hv
  · simp only [set_pud] at h; rw [h1] at h
    exact absurd h hn

theorem priv_set_pmd (end_ : Nat) (x : State) (pmd : Nat × Nat) (v : Nat)
    (hv : v = zero_pte ∨ ∃ b, (b = end_ - 1 ∨ b = end_ - 1 - PMD_SIZE) ∧
      walk_pud x b = some pmd.1 ∧ pmd.2 = pmd_index b) :
    Priv end_ x (set_pmd pmd v x) := by
  refine ⟨fun _ _ h hn => absurd h hn, fun _ _ _ h hn => absurd h hn, ?_⟩
  intro t j p h hn
  rcases upd_cases x.pmd pmd.1 pmd.2 t j (some v) with ⟨h2, h3, h1⟩ | ⟨_, h1⟩
  · simp only [set_pmd] at h; rw [h1] at h
    simp only [Option.some.injEq] at h
    subst h; subst h2; subst h3
    exact hv
  · simp only [set_pmd] at h; rw [h1] at h
    exact absurd h hn

theorem priv_set_pte (end_ : Nat) (x : State) (pte : Nat × Nat) (v : Nat) :
    Priv end_ x (set_pte pte v x) :=
  ⟨fun _ _ h hn => absurd h hn, fun _ _ _ h hn => absurd h hn, fun _ _ _ h hn => absurd h hn⟩

theorem pgd_priv (addr end_ : Nat) (s : State) (h : Inv s) (hlt : addr < end_)
    (hw : end_ + PGDIR_SIZE ≤ WORD) : Priv end_ s (kasan_pgd_populate addr end_ s).2 := by
  unfold kasan_pgd_populate
  simp only
  split_ifs with h1 h2
  · exact priv_set_pgd end_ s _ _ (Or.inl rfl)
  · have hB : ¬ (addr + PGDIR_SIZE) % WORD < end_ := fun h3 => h1 ⟨h2, h3⟩
    obtain ⟨hi, he⟩ := alloc_inv_ext s h
    have hp := priv_alloc end_ s
    cases hr : vmemmap_alloc_block s with
    | mk r s1 =>
      rw [hr] at hi he hp
      cases r with
      | none => exact hp
      | some p =>
        have hs := alloc_some s p (by rw [hr])
        rw [hr] at hs
        simp only at hs hi he hp ⊢
        have hn : s1.pgd (pgd_index addr) = none := by rw [hs.2.1]; exact h2
        obtain ⟨_, he3⟩ := set_pgd_inv_ext s1 hi (pgd_index addr) p hn hs.1
        refine priv_trans hp (priv_set_pgd end_ s1 _ p (Or.inr ?_)) hi he3
        rcases span_pgd addr end_ hlt hw hB with hs2 | hs2
        · exact ⟨_, Or.inl rfl, by unfold pgd_index; rw [hs2]⟩
        · exact ⟨_, Or.inr rfl, by unfold pgd_index; rw [hs2]⟩
  · exact priv_refl end_ s

theorem pud_priv (pgd addr end_ : Nat) (s : State) (h : Inv s) (hlt : addr < end_)
    (hw : end_ + PGDIR_SIZE ≤ WORD) (t1 : Nat) (hpgd : pgd = pgd_index addr)
    (hp1 : s.pgd (pgd_index addr) = some t1) :
    Priv end_ s (kasan_pud_populate pgd addr end_ s).2 := by
  subst hpgd
  have e1 : page_of (s.pgd (pgd_index addr)) = t1 := by rw [hp1]; rfl
  unfold kasan_pud_populate
  simp only
  rw [e1]
  split_ifs with h1 h2
  · exact priv_set_pud end_ s _ _ (Or.inl rfl)
  · have hB : ¬ (addr + PUD_SIZE) % WORD < end_ := fun h3 => h1 ⟨h2, h3⟩
    obtain ⟨hi, he⟩ := alloc_inv_ext s h
    have hp := priv_alloc end_ s
    have hrn := fun p hp => alloc_row_none s p hp
    cases hr : vmemmap_alloc_block s with
    | mk r s1 =>
      rw [hr] at hi he hp hrn
      cases r with
      | none => exact hp
      | some p =>
        have hs := alloc_some s p (by rw [hr])
        rw [hr] at hs
        simp only at hs hi he hp hrn ⊢
        have hn : s1.pud t1 (pud_index addr) = none := (hrn p rfl).1 _ _ h2
        obtain ⟨_, he3⟩ := set_pud_inv_ext s1 hi (t1, pud_index addr) p hn hs.1
        refine priv_trans hp (priv_set_pud end_ s1 _ p (Or.inr ?_)) hi he3
        have hwa : walk_pgd s1 addr = some t1 := he.pgd _ _ hp1
        rcases span_pud addr end_ hlt hw hB with hs2 | hs2
        · refine ⟨_, Or.inl rfl, ?_, by unfold pud_index; rw [hs2]⟩
          rw [← hwa]
          unfold walk_pgd pgd_index
          have e : ∀ x, x / PGDIR_SIZE = x / PUD_SIZE / 2 ^ 9 := by
            intro x; rw [Nat.div_div_eq_div_mul]; rfl
          rw [e addr, e (end_ - 1), hs2]
        · refine ⟨_, Or.inr rfl, ?_, by unfold pud_index; rw [hs2]⟩
          rw [← hwa]
          unfold walk_pgd pgd_index
          have e : ∀ x, x / PGDIR_SIZE = x / PUD_SIZE / 2 ^ 9 := by
            intro x; rw [Nat.div_div_eq_div_mul]; rfl
          rw [e addr, e (end_ - 1 - PUD_SIZE), hs2]
  · exact priv_refl end_ s

theorem pmd_priv (pud : Nat × Nat) (addr end_ : Nat) (s : State) (h : Inv s)
    (hlt : addr < end_) (hw : end_ + PGDIR_SIZE ≤ WORD) (t1 t2 : Nat)
    (hpud : pud = (t1, pud_index addr)) (hp1 : s.pgd (pgd_index addr) = some t1)
    (hp2 : s.pud t1 (pud_index addr) = some t2) :
    Priv end_ s (kasan_pmd_populate pud addr end_ s).2 := by
  subst hpud
  have e1 : page_of (s.pud t1 (pud_index addr)) = t2 := by rw [hp2]; rfl
  unfold kasan_pmd_populate
  simp only
  rw [e1]
  split_ifs with h1 h2
  · exact priv_set_pmd end_ s _ _ (Or.inl rfl)
  · have hB : ¬ (addr + PMD_SIZE) % WORD < end_ := fun h3 => h1 ⟨h2, h3⟩
    obtain ⟨hi, he⟩ := alloc_inv_ext s h
    have hp := priv_alloc end_ s
    have hrn := fun p hp => alloc_row_none s p hp
    cases hr : vmemmap_alloc_block s with
    | mk r s1 =>
      rw [hr] at hi he hp hrn
      cases r with
      | none => exact hp
      | some p =>
        have hs := alloc_some s p (by rw [hr])
        rw [hr] at hs
        simp only at hs hi he hp hrn ⊢
        have hn : s1.pmd t2 (pmd_index addr) = none := (hrn p rfl).2 _ _ h2
        obtain ⟨_, he3⟩ := set_pmd_inv_ext s1 hi (t2, pmd_index addr) p hn hs.1
        refine priv_trans hp (priv_set_pmd end_ s1 _ p (Or.inr ?_)) hi he3
        have hwa : walk_pud s1 addr = some t2 :=
          walk_pud_ext s s1 h he addr t2 ((walk_pud_eq_some _ _ _).2 ⟨t1, hp1, hp2⟩)
        rcases span_pmd addr end_ hlt hw hB with hs2 | hs2
        · refine ⟨_, Or.inl rfl, ?_, by unfold pmd_index; rw [hs2]⟩
          rw [← hwa]
          have e : ∀ x, x / PUD_SIZE = x / PMD_SIZE / 2 ^ 9 := by
            intro x; rw [Nat.div_div_eq_div_mul]; rfl
          exact (walk_pud_span s1 addr _ (by rw [e addr, e (end_ - 1), hs2])).symm
        · refine ⟨_, Or.inr rfl, ?_, by unfold pmd_index; rw [hs2]⟩
          rw [← hwa]
          have e : ∀ x, x / PUD_SIZE = x / PMD_SIZE / 2 ^ 9 := by
            intro x; rw [Nat.div_div_eq_div_mul]; rfl
          exact (walk_pud_span s1 addr _ (by rw [e addr, e (end_ - 1 - PMD_SIZE), hs2])).symm
  · exact priv_refl end_ s

theorem pte_priv (pmd : Nat × Nat) (addr end_ : Nat) (s : State) :
    Priv end_ s (kasan_pte_populate pmd addr end_ s).2 := by
  unfold kasan_pte_populate
  simp only
  split_ifs
  · exact priv_set_pte end_ s _ _
  · exact priv_refl end_ s

theorem body_priv (addr end_ : Nat) (s s1 : State) (h : Inv s) (hlt : addr < end_)
    (hw : end_ + PGDIR_SIZE ≤ WORD)
    (hb : map_zeroes_body addr end_ s = .ok s1 ∨ map_zeroes_body addr end_ s = .error s1) :
    Priv end_ s s1 := by
  unfold map_zeroes_body at hb
  obtain ⟨ia, ea, pa⟩ := pgd_populate_spec addr end_ s h
  have qa := pgd_priv addr end_ s h hlt hw
  cases ra : kasan_pgd_populate addr end_ s with
  | mk r1 sa =>
  rw [ra] at ia ea pa qa hb
  simp only at ia ea pa qa hb
  cases r1 with
  | none =>
    simp only [reduceCtorEq, Except.error.injEq, false_or] at hb
    subst hb; exact qa
  | some pgd =>
  obtain ⟨hpg, t1, ht1⟩ := pa pgd rfl
  subst hpg
  simp only at hb
  obtain ⟨ib, eb, pb⟩ := pud_populate_spec (pgd_index addr) addr end_ sa ia
  have qb := pud_priv (pgd_index addr) addr end_ sa ia hlt hw t1 rfl ht1
  cases rb : kasan_pud_populate (pgd_index addr) addr end_ sa with
  | mk r2 sb =>
  rw [rb] at ib eb pb qb hb
  simp only at ib eb pb qb hb
  have qab := priv_trans qa qb ia eb
  cases r2 with
  | none =>
    simp only [reduceCtorEq, Except.error.injEq, false_or] at hb
    subst hb; exact qab
  | some pud =>
  obtain ⟨hpu, t2, ht2⟩ := pb pud rfl
  have e1 : page_of (sa.pgd (pgd_index addr)) = t1 := by rw [ht1]; rfl
  rw [e1] at hpu
  subst hpu
  simp only at ht2 hb
  have g1 := eb.pgd _ _ ht1
  obtain ⟨ic, ec, _⟩ := pmd_populate_spec (t1, pud_index addr) addr end_ sb ib
  have qc := pmd_priv (t1, pud_index addr) addr end_ sb ib hlt hw t1 t2 rfl g1 ht2
  cases rc : kasan_pmd_populate (t1, pud_index addr) addr end_ sb with
  | mk r3 sc =>
  rw [rc] at ic ec qc hb
  simp only at ic ec qc hb
  have qac := priv_trans qab qc ib ec
  cases r3 with
  | none =>
    simp only [reduceCtorEq, Except.error.injEq, false_or] at hb
    subst hb; exact qac
  | some pmd =>
  simp only at hb
  obtain ⟨_, ed, _⟩ := pte_populate_spec pmd addr end_ sc ic
  have qd := pte_priv pmd addr end_ sc
  cases rd : kasan_pte_populate pmd addr end_ sc with
  | mk r4 sd =>
  rw [rd] at ed qd hb
  simp only at ed qd hb
  have qad := priv_trans qac qd ic ed
  cases r4 with
  | none =>
    simp only [reduceCtorEq, Except.error.injEq, false_or] at hb
    subst hb; exact qad
  | some pte =>
    simp only [Except.ok.injEq, reduceCtorEq, or_false] at hb
    subst hb; exact qad

theorem loop_priv (end_ : Nat) (hw : end_ + PGDIR_SIZE ≤ WORD) :
    ∀ (fuel addr : Nat) (s : State) (r : Int) (s2 : State), Inv s →
      map_zeroes_loop fuel addr end_ s = some (r, s2) → Priv end_ s s2 := by
  intro fuel
  induction fuel with
  | zero =>
    intro addr s r s2 _ hl
    unfold map_zeroes_loop at hl
    split_ifs at hl
    simp only [Option.some.injEq, Prod.mk.injEq] at hl
    obtain ⟨_, rfl⟩ := hl
    exact priv_refl end_ s
  | succ n ih =>
    intro addr s r s2 h hl
    unfold map_zeroes_loop at hl
    split_ifs at hl with hlt
    · cases hb : map_zeroes_body addr end_ s with
      | error s1 =>
        rw [hb] at hl
        simp only [Option.some.injEq, Prod.mk.injEq] at hl
        obtain ⟨_, rfl⟩ := hl
        exact body_priv addr end_ s _ h hlt hw (Or.inr hb)
      | ok s1 =>
        rw [hb] at hl
        simp only at hl
        obtain ⟨i1, _, _⟩ := (body_spec addr end_ s h).1 _ hb
        obtain ⟨_, e2⟩ := loop_inv_ext end_ n _ s1 r s2 i1 hl
        exact priv_trans (body_priv addr end_ s s1 h hlt hw (Or.inl hb)) (ih _ _ _ _ i1 hl) i1 e2
    · simp only [Option.some.injEq, Prod.mk.injEq] at hl
      obtain ⟨_, rfl⟩ := hl
      exact priv_refl end_ s

theorem loop_terminates (end_ : Nat) (hw : end_ + PAGE_SIZE ≤ WORD) :
    ∀ (fuel addr : Nat) (s : State),
      (end_ - addr + (PAGE_SIZE - 1)) / PAGE_SIZE ≤ fuel →
      ∃ r s2, map_zeroes_loop fuel addr end_ s = some (r, s2) := by
  intro fuel
  induction fuel with
  | zero =>
    intro addr s hf
    have hge : ¬ addr < end_ := by
      intro hlt
      have : 1 ≤ (end_ - addr + (PAGE_SIZE - 1)) / PAGE_SIZE := by
        rw [Nat.le_div_iff_mul_le (by decide)]
        simp only [PAGE_SIZE] at *
        omega
      omega
    exact ⟨0, s, by unfold map_zeroes_loop; simp [hge]⟩
  | succ n ih =>
    intro addr s hf
    unfold map_zeroes_loop
    by_cases hlt : addr < end_
    · simp only [hlt, if_true]
      cases hb : map_zeroes_body addr end_ s with
      | error s1 => exact ⟨_, _, rfl⟩
      | ok s1 =>
        simp only
        have hnw : (addr + PAGE_SIZE) % WORD = addr + PAGE_SIZE := by
          apply Nat.mod_eq_of_lt; omega
        rw [hnw]
        apply ih
        have : end_ - addr + (PAGE_SIZE - 1) =
            end_ - (addr + PAGE_SIZE) + (PAGE_SIZE - 1) + PAGE_SIZE ∨
            end_ - (addr + PAGE_SIZE) = 0 := by
          simp only [PAGE_SIZE] at *; omega
        rcases this with h3 | h3
        · rw [h3, Nat.add_div_right _ (by decide : 0 < PAGE_SIZE)] at hf
          omega
        · rw [h3]
          have : (0 + (PAGE_SIZE - 1)) / PAGE_SIZE = 0 := by decide
          rw [this]; omega
    · exact ⟨0, s, by simp [hlt]⟩

theorem fuel_enough (start end_ : Nat) (hw : end_ + PAGE_SIZE ≤ WORD) :
    (end_ - start + (PAGE_SIZE - 1)) / PAGE_SIZE ≤ 2 ^ 53 := by
  rw [Nat.div_le_iff_le_mul_add_pred (by decide)]
  simp only [PAGE_SIZE, WORD] at *
  norm_num at *
  omega

theorem boot_state_inv (oom : Nat → Bool) : Inv (boot_state oom) := by
  refine ⟨by simp [boot_state, empty_zero_page], ?_, ?_, ?_⟩
  · intro i p hp; cases hp
  · intro t i p _ hp
    simp only [boot_state] at hp ⊢
    split_ifs at hp
    simp only [Option.some.injEq] at hp
    subst hp; decide
  · intro t i p _ hp
    simp only [boot_state] at hp ⊢
    split_ifs at hp
    simp only [Option.some.injEq] at hp
    subst hp; decide

/-! ## The main results about `map_zeroes` -/

/-- C1 (completeness of `map_zeroes`).  For a page-aligned `start` and an `end_` with
`end_ + PGDIR_SIZE` not wrapping (the window is empty unless `start < end_`), from any well-formed table state and with an
allocator that never fails, `map_zeroes` returns 0, and afterwards the walk
pgd, pud, pmd, pte of every address of the window ends in a mapped leaf entry;
a leaf entry that was unmapped before the call holds the shared zero page.
(The placeholder tables need not even be full for this.) -/
theorem map_zeroes_complete (start end_ : Nat) (s : State)
    (halign : start % PAGE_SIZE = 0)
    (hwrap : end_ + PGDIR_SIZE ≤ WORD) (hinv : Inv s) (halloc : ∀ n, s.oom n = false) :
    ∃ s2, map_zeroes start end_ s = some (0, s2) ∧
      ∀ a, start ≤ a → a < end_ →
        ∃ t1 t2 t3 v, s2.pgd (pgd_index a) = some t1 ∧ s2.pud t1 (pud_index a) = some t2 ∧
          s2.pmd t2 (pmd_index a) = some t3 ∧ s2.pte t3 (pte_index a) = some v ∧
          (s.pte t3 (pte_index a) = none → v = empty_zero_page) := by
  have hw : end_ + PAGE_SIZE ≤ WORD := by
    simp only [PAGE_SIZE, PGDIR_SIZE, WORD] at *; omega
  obtain ⟨s2, hl, hall⟩ :=
    loop_complete end_ hw (2 ^ 53) start s hinv halloc halign (fuel_enough start end_ hw)
  refine ⟨s2, hl, ?_⟩
  intro a h1 h2
  obtain ⟨v, hv⟩ := hall a h1 h2
  obtain ⟨t1, t2, t3, g1, g2, g3, g4⟩ := (walk_eq_some s2 a v).1 hv
  refine ⟨t1, t2, t3, v, g1, g2, g3, g4, ?_⟩
  intro hn
  obtain ⟨_, he⟩ := loop_inv_ext end_ _ _ s 0 s2 hinv hl
  rcases he.leaf t3 (pte_index a) with h3 | h3 | h3
  · rw [g4, hn] at h3; cases h3
  · rw [g4] at h3; exact Option.some.inj h3
  · rw [g4] at h3; cases h3

theorem map_zeroes_complete_witness :
    ∃ s2, map_zeroes 0 8192 (boot_state (fun _ => false)) = some (0, s2) ∧
      ∀ a, 0 ≤ a → a < 8192 →
        ∃ t1 t2 t3 v, s2.pgd (pgd_index a) = some t1 ∧ s2.pud t1 (pud_index a) = some t2 ∧
          s2.pmd t2 (pmd_index a) = some t3 ∧ s2.pte t3 (pte_index a) = some v ∧
          ((boot_state (fun _ => false)).pte t3 (pte_index a) = none → v = empty_zero_page) :=
  map_zeroes_complete 0 8192 (boot_state (fun _ => false)) (by decide)
    (by decide) (boot_state_inv _) (fun _ => rfl)

/-- C8 (constant allocation cost).  For a window whose end does not wrap and a
well-formed table state, `map_zeroes` returns and has called the page allocator
at most 6 times more; a private subtable is installed only in the entries of
the last two spans of each of the pgd, pud and pmd levels before `end_` (at most
two per level); and every leaf entry is as before, or the shared zero page, or
empty: no real page is installed at the leaf level.  The bound does not depend
on `end_ - start`. -/
theorem map_zeroes_alloc_bound (start end_ : Nat) (s : State)
    (hwrap : end_ + PGDIR_SIZE ≤ WORD) (hinv : Inv s) :
    ∃ r s2, map_zeroes start end_ s = some (r, s2) ∧ s2.calls ≤ s.calls + 6 ∧
      Priv end_ s s2 ∧
      ∀ t i, s2.pte t i = s.pte t i ∨ s2.pte t i = some empty_zero_page ∨
        s2.pte t i = none := by
  have hw : end_ + PAGE_SIZE ≤ WORD := by
    simp only [PAGE_SIZE, PGDIR_SIZE, WORD] at *; omega
  obtain ⟨r, s2, hl⟩ := loop_terminates end_ hw (2 ^ 53) start s (fuel_enough start end_ hw)
  refine ⟨r, s2, hl, ?_, loop_priv end_ hwrap _ _ s r s2 hinv hl, ?_⟩
  · have := loop_cost end_ hwrap _ _ s r s2 hinv hl
    have := potential_le end_ s
    omega
  · exact (loop_inv_ext end_ _ _ s r s2 hinv hl).2.leaf

theorem map_zeroes_alloc_bound_witness :
    ∃ r s2, map_zeroes 0 (2 ^ 45) (boot_state (fun _ => false)) = some (r, s2) ∧
      s2.calls ≤ (boot_state (fun _ => false)).calls + 6 ∧
      Priv (2 ^ 45) (boot_state (fun _ => false)) s2 ∧
      ∀ t i, s2.pte t i = (boot_state (fun _ => false)).pte t i ∨
        s2.pte t i = some empty_zero_page ∨ s2.pte t i = none :=
  map_zeroes_alloc_bound 0 (2 ^ 45) (boot_state (fun _ => false)) (by decide)
    (boot_state_inv _)

/-- C10 (`map_zeroes` writes only unmapped entries).  From a well-formed state,
whatever `map_zeroes` returns, every entry that was mapped before the call,
at every level, is unchanged; so the full placeholder tables are unchanged;
and a second run after a successful one returns 0 in the very same state
(no entry changed, no allocator call). -/
theorem map_zeroes_frame (start end_ : Nat) (s : State) (r : Int) (s2 : State)
    (hinv : Inv s) (hrun : map_zeroes start end_ s = some (r, s2)) :
    (∀ i p, s.pgd i = some p → s2.pgd i = some p) ∧
    (∀ t i p, t < s.brk → s.pud t i = some p → s2.pud t i = some p) ∧
    (∀ t i p, t < s.brk → s.pmd t i = some p → s2.pmd t i = some p) ∧
    (∀ t i p, t < s.brk → s.pte t i = some p → s2.pte t i = some p) ∧
    ((∀ i, i < 512 → s.pud zero_pud i ≠ none ∧ s.pmd zero_pmd i ≠ none ∧
        s.pte zero_pte i ≠ none) →
      ∀ i, i < 512 → s2.pud zero_pud i = s.pud zero_pud i ∧
        s2.pmd zero_pmd i = s.pmd zero_pmd i ∧ s2.pte zero_pte i = s.pte zero_pte i) ∧
    (r = 0 → map_zeroes start end_ s2 = some (0, s2)) := by
  obtain ⟨_, he⟩ := loop_inv_ext end_ _ _ s r s2 hinv hrun
  refine ⟨he.pgd, he.pud, he.pmd, he.pte, ?_, ?_⟩
  · intro hz i hi
    obtain ⟨z1, z2, z3⟩ := hz i hi
    have b1 : zero_pud < s.brk := lt_trans (by decide) hinv.hbrk
    have b2 : zero_pmd < s.brk := lt_trans (by decide) hinv.hbrk
    have b3 : zero_pte < s.brk := lt_trans (by decide) hinv.hbrk
    refine ⟨?_, ?_, ?_⟩
    · cases hv : s.pud zero_pud i with
      | none => exact absurd hv z1
      | some v => exact he.pud _ _ _ b1 hv
    · cases hv : s.pmd zero_pmd i with
      | none => exact absurd hv z2
      | some v => exact he.pmd _ _ _ b2 hv
    · cases hv : s.pte zero_pte i with
      | none => exact absurd hv z3
      | some v => exact he.pte _ _ _ b3 hv
  · intro hr
    subst hr
    exact loop_rerun end_ _ _ s s2 s2 hinv hrun (Ext.refl s2)

theorem map_zeroes_frame_witness :
    (∀ i p, (boot_state (fun _ => false)).pgd i = some p → one_page_state.pgd i = some p) ∧
    (∀ t i p, t < (boot_state (fun _ => false)).brk →
      (boot_state (fun _ => false)).pud t i = some p → one_page_state.pud t i = some p) ∧
    (∀ t i p, t < (boot_state (fun _ => false)).brk →
      (boot_state (fun _ => false)).pmd t i = some p → one_page_state.pmd t i = some p) ∧
    (∀ t i p, t < (boot_state (fun _ => false)).brk →
      (boot_state (fun _ => false)).pte t i = some p → one_page_state.pte t i = some p) ∧
    ((∀ i, i < 512 → (boot_state (fun _ => false)).pud zero_pud i ≠ none ∧
        (boot_state (fun _ => false)).pmd zero_pmd i ≠ none ∧
        (boot_state (fun _ => false)).pte zero_pte i ≠ none) →
      ∀ i, i < 512 →
        one_page_state.pud zero_pud i = (boot_state (fun _ => false)).pud zero_pud i ∧
        one_page_state.pmd zero_pmd i = (boot_state (fun _ => false)).pmd zero_pmd i ∧
        one_page_state.pte zero_pte i = (boot_state (fun _ => false)).pte zero_pte i) ∧
    ((0 : Int) = 0 → map_zeroes 0 4096 one_page_state = some (0, one_page_state)) :=
  map_zeroes_frame 0 4096 (boot_state (fun _ => false)) 0 one_page_state
    (boot_state_inv _) rfl

/-! ## The address translator and the real-range mapper -/

theorem shadow_no_wrap (c : Config) (a : Nat)
    (h : a / 2 ^ c.KASAN_SHADOW_SCALE_SHIFT + c.KASAN_SHADOW_OFFSET < WORD) :
    kasan_mem_to_shadow c a = a / 2 ^ c.KASAN_SHADOW_SCALE_SHIFT + c.KASAN_SHADOW_OFFSET := by
  unfold kasan_mem_to_shadow
  exact Nat.mod_eq_of_lt h

theorem shadow_le (c : Config) (a1 a2 : Nat) (h : a1 ≤ a2)
    (hnw : a2 / 2 ^ c.KASAN_SHADOW_SCALE_SHIFT + c.KASAN_SHADOW_OFFSET < WORD) :
    kasan_mem_to_shadow c a1 ≤ kasan_mem_to_shadow c a2 := by
  have hd : a1 / 2 ^ c.KASAN_SHADOW_SCALE_SHIFT ≤ a2 / 2 ^ c.KASAN_SHADOW_SCALE_SHIFT :=
    Nat.div_le_div_right h
  rw [shadow_no_wrap c a2 hnw, shadow_no_wrap c a1 (by omega)]
  omega

/-- C9 (`toShadow` keeps the order).  With `toShadow(a) = (a >> k) + SHADOW_BASE`
in 64-bit arithmetic: for real addresses `a1 < a2` of a range on which the sum
does not wrap, `toShadow a1 ≤ toShadow a2`; and the `start` and `end` that
`map_range` computes for a range of such addresses satisfy `start ≤ end`. -/
theorem kasan_mem_to_shadow_mono (c : Config) :
    (∀ a1 a2, a1 < a2 →
      a2 / 2 ^ c.KASAN_SHADOW_SCALE_SHIFT + c.KASAN_SHADOW_OFFSET < WORD →
      kasan_mem_to_shadow c a1 ≤ kasan_mem_to_shadow c a2) ∧
    (∀ range : Range, range.start ≤ range.end_ →
      c.pfn_to_kaddr range.start ≤ c.pfn_to_kaddr range.end_ →
      c.pfn_to_kaddr range.end_ / 2 ^ c.KASAN_SHADOW_SCALE_SHIFT + c.KASAN_SHADOW_OFFSET
        < WORD →
      map_range_start c range ≤ map_range_end c range) :=
  ⟨fun a1 a2 h hnw => shadow_le c a1 a2 (Nat.le_of_lt h) hnw,
   fun _ _ hk hnw => shadow_le c _ _ hk hnw⟩

theorem kasan_mem_to_shadow_mono_witness :
    kasan_mem_to_shadow sample_config 0xffff880000000000 ≤
      kasan_mem_to_shadow sample_config 0xffff880000100000 ∧
    map_range_start sample_config ⟨0, 256⟩ ≤ map_range_end sample_config ⟨0, 256⟩ :=
  ⟨(kasan_mem_to_shadow_mono sample_config).1 0xffff880000000000 0xffff880000100000
      (by decide) (by decide),
   (kasan_mem_to_shadow_mono sample_config).2 ⟨0, 256⟩ (by decide) (by decide) (by decide)⟩

/-- C3 (overscan of `map_range`).  `map_range` calls the populator on exactly
the window from `toShadow(kaddr(s))` to `toShadow(kaddr(e)) + 1` and returns its
result unchanged; so the shadow byte of every real address between `kaddr(s)`
and `kaddr(e)`, that of `kaddr(e)` included, lies in the populated window.
The shadow region is assumed to end below the top of the address space (the
shadow of the highest address, plus one, does not wrap), as it does on x86-64. -/
theorem map_range_overscan (c : Config)
    (populate : Nat → Nat → State → Int × State) (range : Range) (s : State)
    (hoff : (WORD - 1) / 2 ^ c.KASAN_SHADOW_SCALE_SHIFT + c.KASAN_SHADOW_OFFSET + 1 < WORD)
    (hword : c.pfn_to_kaddr range.end_ < WORD) :
    map_range c populate range s =
      populate (kasan_mem_to_shadow c (c.pfn_to_kaddr range.start))
        (kasan_mem_to_shadow c (c.pfn_to_kaddr range.end_) + 1) s ∧
    ∀ a, c.pfn_to_kaddr range.start ≤ a → a ≤ c.pfn_to_kaddr range.end_ →
      kasan_mem_to_shadow c (c.pfn_to_kaddr range.start) ≤ kasan_mem_to_shadow c a ∧
      kasan_mem_to_shadow c a < kasan_mem_to_shadow c (c.pfn_to_kaddr range.end_) + 1 := by
  have hd : c.pfn_to_kaddr range.end_ / 2 ^ c.KASAN_SHADOW_SCALE_SHIFT ≤
      (WORD - 1) / 2 ^ c.KASAN_SHADOW_SCALE_SHIFT :=
    Nat.div_le_div_right (Nat.le_pred_of_lt hword)
  have hnw : c.pfn_to_kaddr range.end_ / 2 ^ c.KASAN_SHADOW_SCALE_SHIFT +
      c.KASAN_SHADOW_OFFSET < WORD := by omega
  constructor
  · have e : (map_range_end c range + 1) % WORD =
        kasan_mem_to_shadow c (c.pfn_to_kaddr range.end_) + 1 := by
      unfold map_range_end
      apply Nat.mod_eq_of_lt
      rw [shadow_no_wrap c _ hnw]
      omega
    unfold map_range
    rw [e]
    rfl
  · intro a h1 h2
    have hnwa : a / 2 ^ c.KASAN_SHADOW_SCALE_SHIFT + c.KASAN_SHADOW_OFFSET < WORD := by
      have : a / 2 ^ c.KASAN_SHADOW_SCALE_SHIFT ≤
          c.pfn_to_kaddr range.end_ / 2 ^ c.KASAN_SHADOW_SCALE_SHIFT :=
        Nat.div_le_div_right h2
      omega
    exact ⟨shadow_le c _ a h1 hnwa, Nat.lt_succ_of_le (shadow_le c a _ h2 hnw)⟩

theorem map_range_overscan_witness :
    map_range sample_config vmemmap_populate ⟨0, 256⟩ (boot_state (fun _ => false)) =
      vmemmap_populate (kasan_mem_to_shadow sample_config (sample_config.pfn_to_kaddr 0))
        (kasan_mem_to_shadow sample_config (sample_config.pfn_to_kaddr 256) + 1)
        (boot_state (fun _ => false)) ∧
    ∀ a, sample_config.pfn_to_kaddr 0 ≤ a → a ≤ sample_config.pfn_to_kaddr 256 →
      kasan_mem_to_shadow sample_config (sample_config.pfn_to_kaddr 0) ≤
        kasan_mem_to_shadow sample_config a ∧
      kasan_mem_to_shadow sample_config a <
        kasan_mem_to_shadow sample_config (sample_config.pfn_to_kaddr 256) + 1 :=
  map_range_overscan sample_config vmemmap_populate ⟨0, 256⟩ (boot_state (fun _ => false))
    (by decide) (by decide)

/-! ## The zero-window clearer -/

theorem clear_loop_spec (end_ : Nat) (hw : end_ + PGDIR_SIZE ≤ WORD) :
    ∀ (fuel start : Nat) (s : State),
      (start < end_ → start % PGDIR_SIZE + (end_ - 1 - start) % PGDIR_SIZE < PGDIR_SIZE) →
      (end_ - start + (PGDIR_SIZE - 1)) / PGDIR_SIZE ≤ fuel →
      ∃ s2, clear_loop fuel start end_ s = some s2 ∧
        (∀ i, (∃ a, start ≤ a ∧ a < end_ ∧ pgd_index a = i) → s2.pgd i = none) ∧
        (∀ i, (¬ ∃ a, start ≤ a ∧ a < end_ ∧ pgd_index a = i) → s2.pgd i = s.pgd i) ∧
        s2.pud = s.pud ∧ s2.pmd = s.pmd ∧ s2.pte = s.pte := by
  intro fuel
  induction fuel with
  | zero =>
    intro start s _ hf
    have hge : ¬ start < end_ := by
      intro hlt
      have : 1 ≤ (end_ - start + (PGDIR_SIZE - 1)) / PGDIR_SIZE := by
        rw [Nat.le_div_iff_mul_le (by decide)]
        simp only [PGDIR_SIZE] at *
        omega
      omega
    refine ⟨s, by unfold clear_loop; simp [hge], ?_, fun _ _ => rfl, rfl, rfl, rfl⟩
    rintro i ⟨a, h1, h2, _⟩
    omega
  | succ n ih =>
    intro start s hC hf
    unfold clear_loop
    by_cases hlt : start < end_
    · simp only [hlt, if_true]
      have hC0 := hC hlt
      have hnw : (start + PGDIR_SIZE) % WORD = start + PGDIR_SIZE := by
        apply Nat.mod_eq_of_lt; omega
      rw [hnw]
      have hC1 : start + PGDIR_SIZE < end_ → (start + PGDIR_SIZE) % PGDIR_SIZE +
          (end_ - 1 - (start + PGDIR_SIZE)) % PGDIR_SIZE < PGDIR_SIZE := by
        intro h1
        simp only [PGDIR_SIZE] at *
        omega
      have hf1 : (end_ - (start + PGDIR_SIZE) + (PGDIR_SIZE - 1)) / PGDIR_SIZE ≤ n := by
        have : end_ - start + (PGDIR_SIZE - 1) =
            end_ - (start + PGDIR_SIZE) + (PGDIR_SIZE - 1) + PGDIR_SIZE ∨
            end_ - (start + PGDIR_SIZE) = 0 := by
          simp only [PGDIR_SIZE] at *; omega
        rcases this with h3 | h3
        · rw [h3, Nat.add_div_right _ (by decide : 0 < PGDIR_SIZE)] at hf
          omega
        · rw [h3]
          have : (0 + (PGDIR_SIZE - 1)) / PGDIR_SIZE = 0 := by decide
          rw [this]; omega
      obtain ⟨s2, hl, hin, hout, e1, e2, e3⟩ :=
        ih (start + PGDIR_SIZE) (pgd_clear (pgd_index start) s) hC1 hf1
      refine ⟨s2, hl, ?_, ?_, e1, e2, e3⟩
      · rintro i ⟨a, h1, h2, h3⟩
        by_cases hin2 : ∃ a, start + PGDIR_SIZE ≤ a ∧ a < end_ ∧ pgd_index a = i
        · exact hin i hin2
        · rw [hout i hin2]
          have ha : a < start + PGDIR_SIZE := by
            by_contra hc
            exact hin2 ⟨a, by omega, h2, h3⟩
          have hsame : a / PGDIR_SIZE = start / PGDIR_SIZE := by
            by_contra hne
            have hnext : (start + PGDIR_SIZE) / PGDIR_SIZE = a / PGDIR_SIZE := by
              simp only [PGDIR_SIZE] at *
              omega
            by_cases hmore : start + PGDIR_SIZE < end_
            · exact hin2 ⟨start + PGDIR_SIZE, le_rfl, hmore, by
                rw [← h3]; unfold pgd_index; rw [hnext]⟩
            · simp only [PGDIR_SIZE] at *
              omega
          have hi : i = pgd_index start := by
            rw [← h3]; unfold pgd_index; rw [hsame]
          subst hi
          simp [pgd_clear]
      · intro i hni
        have hni2 : ¬ ∃ a, start + PGDIR_SIZE ≤ a ∧ a < end_ ∧ pgd_index a = i := by
          rintro ⟨a, h1, h2, h3⟩
          exact hni ⟨a, by omega, h2, h3⟩
        rw [hout i hni2]
        have hne : i ≠ pgd_index start := by
          intro hi
          exact hni ⟨start, le_rfl, hlt, hi.symm⟩
        simp [pgd_clear, Function.update_noteq hne]
    · refine ⟨s, by simp [hlt], ?_, fun _ _ => rfl, rfl, rfl, rfl⟩
      rintro i ⟨a, h1, h2, _⟩
      omega

theorem clear_fuel_enough (start end_ : Nat) (hw : end_ + PGDIR_SIZE ≤ WORD) :
    (end_ - start + (PGDIR_SIZE - 1)) / PGDIR_SIZE ≤ 2 ^ 25 := by
  rw [Nat.div_le_iff_le_mul_add_pred (by decide)]
  simp only [PGDIR_SIZE, WORD] at *
  norm_num at *
  omega

/-- C7 as stated fails: with `start` in the middle of the span of entry 0 and
`end_` one byte into the span of entry 1, the loop clears entry 0 only; entry 1,
whose span meets the window at address `2 ^ 39`, is still mapped. -/
theorem clear_misses_entry :
    ∃ s2, clear_zero_shadow_mapping (2 ^ 38) (2 ^ 39 + 1) (provisional_state (fun _ => false)) = some s2 ∧
      (2 ^ 38 ≤ 2 ^ 39 ∧ 2 ^ 39 < 2 ^ 39 + 1 ∧ pgd_index (2 ^ 39) = 1) ∧
      s2.pgd 1 = some 0 :=
  ⟨pgd_clear 0 (provisional_state (fun _ => false)), rfl, by decide, rfl⟩

/-- C7, amended.  For a window with `end_ + PGDIR_SIZE` not wrapping and
such that stepping by `PGDIR_SIZE` from `start` reaches the span of the last
byte of the window (`start % PGDIR_SIZE + (end_ - 1 - start) % PGDIR_SIZE <
PGDIR_SIZE`: so when `start` is aligned to `PGDIR_SIZE`, and when the window
lies within one span), `clear_zero_shadow_mapping` returns, every top-level
entry whose span meets the window is then unmapped, every other top-level entry
is unchanged, and so are the lower tables. -/
theorem clear_zero_shadow_mapping_spec (start end_ : Nat) (s : State)
    (hwrap : end_ + PGDIR_SIZE ≤ WORD)
    (hreach : start % PGDIR_SIZE + (end_ - 1 - start) % PGDIR_SIZE < PGDIR_SIZE) :
    ∃ s2, clear_zero_shadow_mapping start end_ s = some s2 ∧
      (∀ i, (∃ a, start ≤ a ∧ a < end_ ∧ pgd_index a = i) → s2.pgd i = none) ∧
      (∀ i, (¬ ∃ a, start ≤ a ∧ a < end_ ∧ pgd_index a = i) → s2.pgd i = s.pgd i) ∧
      s2.pud = s.pud ∧ s2.pmd = s.pmd ∧ s2.pte = s.pte :=
  clear_loop_spec end_ hwrap (2 ^ 25) start s (fun _ => hreach)
    (clear_fuel_enough start end_ hwrap)

theorem clear_zero_shadow_mapping_spec_witness :
    ∃ s2, clear_zero_shadow_mapping 0xfffffbfff0000000 0xfffffbffffffffff
        (provisional_state (fun _ => false)) = some s2 ∧
      (∀ i, (∃ a, 0xfffffbfff0000000 ≤ a ∧ a < 0xfffffbffffffffff ∧ pgd_index a = i) →
        s2.pgd i = none) ∧
      (∀ i, (¬ ∃ a, 0xfffffbfff0000000 ≤ a ∧ a < 0xfffffbffffffffff ∧ pgd_index a = i) →
        s2.pgd i = (provisional_state (fun _ => false)).pgd i) ∧
      s2.pud = (provisional_state (fun _ => false)).pud ∧
      s2.pmd = (provisional_state (fun _ => false)).pmd ∧
      s2.pte = (provisional_state (fun _ => false)).pte :=
  clear_zero_shadow_mapping_spec 0xfffffbfff0000000 0xfffffbffffffffff
    (provisional_state (fun _ => false)) (by decide) (by decide)

/-! ## The shared-subtable shortcut and an unaligned start -/

theorem loop_first_pass (fuel addr end_ : Nat) (s s1 : State) (hlt : addr < end_)
    (hb : map_zeroes_body addr end_ s = .ok s1) :
    map_zeroes_loop (fuel + 1) addr end_ s =
      map_zeroes_loop fuel ((addr + PAGE_SIZE) % WORD) end_ s1 := by
  rw [map_zeroes_loop, if_pos hlt, hb]

/-- C6 fails on the code for a window that starts inside a span:
`map_zeroes(0x1000, 2^39 + 0x2000)` from the boot tables finds top-level entry 0
unmapped and, as `0x1000 + PGDIR_SIZE < end`, points it to the shared `zero_pud`,
although address 0 of that entry's span lies outside the window. -/
theorem shortcut_outside_window :
    ∃ s2, map_zeroes 0x1000 (2 ^ 39 + 0x2000) (boot_state (fun _ => false)) = some (0, s2) ∧
      (boot_state (fun _ => false)).pgd (pgd_index 0x1000) = none ∧
      s2.pgd (pgd_index 0x1000) = some zero_pud ∧
      pgd_index 0 = pgd_index 0x1000 ∧ ¬ (0x1000 ≤ 0) := by
  have hb : map_zeroes_body 0x1000 (2 ^ 39 + 0x2000) (boot_state (fun _ => false)) =
      .ok (set_pgd 0 zero_pud (boot_state (fun _ => false))) := by rfl
  have hi : Inv (set_pgd 0 zero_pud (boot_state (fun _ => false))) :=
    ((body_spec _ _ _ (boot_state_inv _)).1 _ hb).1
  have hw : 2 ^ 39 + 0x2000 + PAGE_SIZE ≤ WORD := by decide
  obtain ⟨s2, hl, _⟩ := loop_complete (2 ^ 39 + 0x2000) hw (2 ^ 53 - 1) 0x2000
    (set_pgd 0 zero_pud (boot_state (fun _ => false))) hi (fun _ => rfl) (by decide)
    (by decide)
  obtain ⟨_, he⟩ := loop_inv_ext _ _ _ _ _ _ hi hl
  refine ⟨s2, ?_, rfl, he.pgd _ _ (by rfl), by decide, by decide⟩
  have h1 := loop_first_pass (2 ^ 53 - 1) 0x1000 (2 ^ 39 + 0x2000) _ _ (by decide) hb
  exact h1.trans hl

/-! ## The boot orchestrator -/

/-- The loop over `pfn_mapped` leaves the root, the poisoned page and the depth
counter alone and logs nothing but `map_range` events. -/
theorem map_ranges_frame (c : Config) (populate : Nat → Nat → State → Int × State) :
    ∀ (l : List Range) (b b2 : Boot),
      (map_ranges c populate l b = .ok b2 ∨ map_ranges c populate l b = .error b2) →
      b2.cr3 = b.cr3 ∧ b2.kasan_depth = b.kasan_depth ∧ b2.poisoned_page = b.poisoned_page ∧
      ∃ evs, b2.log = b.log ++ evs ∧ ∀ e ∈ evs, e.early = true := by
  intro l
  induction l with
  | nil =>
    intro b b2 h
    simp only [map_ranges, Except.ok.injEq, reduceCtorEq, or_false] at h
    subst h
    exact ⟨rfl, rfl, rfl, [], by simp, by simp⟩
  | cons range rest ih =>
    intro b b2 h
    unfold map_ranges at h
    by_cases h0 : range.end_ = 0
    · simp only [h0, if_true, Except.ok.injEq, reduceCtorEq, or_false] at h
      subst h
      exact ⟨rfl, rfl, rfl, [], by simp, by simp⟩
    · by_cases h1 : (map_range c populate range b.mm).1 ≠ 0
      · simp only [h0, if_false, if_pos h1, reduceCtorEq, Except.error.injEq, false_or] at h
        subst h
        refine ⟨rfl, rfl, rfl, [Event.map_range _], rfl, ?_⟩
        intro e he
        simp only [List.mem_singleton] at he
        subst he; rfl
      · simp only [h0, if_false, if_neg h1] at h
        obtain ⟨g1, g2, g3, evs, g4, g5⟩ := ih _ b2 h
        refine ⟨g1, g2, g3, Event.map_range (map_range c populate range b.mm).1 :: evs, ?_, ?_⟩
        · rw [g4]; simp
        · intro e he
          simp only [List.mem_cons] at he
          rcases he with he | he
          · subst he; rfl
          · exact g5 e he

theorem map_ranges_cons (c : Config) (populate : Nat → Nat → State → Int × State)
    (range : Range) (l : List Range) (b : Boot) (h0 : range.end_ ≠ 0) :
    map_ranges c populate (range :: l) b =
      if (map_range c populate range b.mm).1 ≠ 0 then
        .error { b with mm := (map_range c populate range b.mm).2,
                        log := b.log ++ [Event.map_range (map_range c populate range b.mm).1] }
      else map_ranges c populate l
        { b with mm := (map_range c populate range b.mm).2,
                 log := b.log ++ [Event.map_range (map_range c populate range b.mm).1] } := by
  conv_lhs => unfold map_ranges
  rw [if_neg h0]

theorem map_ranges_append (c : Config) (populate : Nat → Nat → State → Int × State) :
    ∀ (pre rest : List Range) (b b2 : Boot), (∀ r ∈ pre, r.end_ ≠ 0) →
      map_ranges c populate pre b = .ok b2 →
      map_ranges c populate (pre ++ rest) b = map_ranges c populate rest b2 := by
  intro pre
  induction pre with
  | nil =>
    intro rest b b2 _ h
    simp only [map_ranges, Except.ok.injEq] at h
    subst h; rfl
  | cons range pre ih =>
    intro rest b b2 hne h
    have h0 : range.end_ ≠ 0 := hne range (by simp)
    rw [List.cons_append]
    rw [map_ranges_cons c populate range _ b h0] at h ⊢
    by_cases h1 : (map_range c populate range b.mm).1 ≠ 0
    · simp only [if_pos h1, reduceCtorEq] at h
    · simp only [if_neg h1] at h ⊢
      exact ih rest _ b2 (fun r hr => hne r (by simp [hr])) h

/-- C4 (a failure in step 5 halts the boot).  If the first entries `pre` of
`pfn_mapped` have a non-zero end and map successfully, and `map_range` of the
next entry returns non-zero, then `kasan_init` panics right there: the root is
still the early table, the poisoned page and the depth counter are untouched,
and no step after the loop has run (the log holds steps 2 to 5 only). -/
theorem kasan_init_panics (c : Config) (populate : Nat → Nat → State → Int × State)
    (pre : List Range) (range : Range) (post : List Range) (b : Boot) (m1 : State) (b3 : Boot)
    (hlog : b.log = [])
    (hclear : clear_zero_shadow_mapping (kasan_mem_to_shadow c c.PAGE_OFFSET)
      (kasan_mem_to_shadow c ((c.PAGE_OFFSET + c.MAXMEM) % WORD)) b.mm = some m1)
    (hends : ∀ r ∈ pre, r.end_ ≠ 0)
    (hpre : map_ranges c populate pre
      { b with mm := m1, early_level4_pgt := b.mm.pgd, cr3 := Cr3.early_level4_pgt,
               log := [Event.vm_area_add_early, Event.load_cr3_early,
                 Event.clear_direct_map] } = .ok b3)
    (hend : range.end_ ≠ 0)
    (hfail : (map_range c populate range b3.mm).1 ≠ 0) :
    ∃ b4, kasan_init c populate (pre ++ range :: post) b = .panic b4 ∧
      b4.mm = (map_range c populate range b3.mm).2 ∧
      b4.cr3 = Cr3.early_level4_pgt ∧ b4.poisoned_page = b.poisoned_page ∧
      b4.kasan_depth = b.kasan_depth ∧ ∀ e ∈ b4.log, e.early = true := by
  obtain ⟨g1, g2, g3, evs, g4, g5⟩ := map_ranges_frame c populate pre _ b3 (Or.inl hpre)
  refine ⟨{ b3 with mm := (map_range c populate range b3.mm).2,
                    log := b3.log ++ [Event.map_range (map_range c populate range b3.mm).1] },
    ?_, rfl, g1, g3, g2, ?_⟩
  · unfold kasan_init
    simp only [hlog, List.nil_append, hclear, List.cons_append, List.singleton_append]
    rw [map_ranges_append c populate pre (range :: post) _ b3 hends hpre]
    rw [map_ranges_cons c populate range post b3 hend, if_pos hfail]
  · intro e he
    have hl : b3.log = [Event.vm_area_add_early, Event.load_cr3_early,
        Event.clear_direct_map] ++ evs := g4
    simp only [hl, List.mem_append, List.mem_cons, List.mem_singleton, List.not_mem_nil,
      or_false] at he
    rcases he with ((he | he | he) | he) | he
    · subst he; rfl
    · subst he; rfl
    · subst he; rfl
    · exact g5 e he
    · subst he; rfl

theorem kasan_init_panics_witness :
    ∃ b4, kasan_init sample_config vmemmap_populate ([] ++ ⟨0, 256⟩ :: [⟨0, 0⟩])
        (provisional_boot (fun _ => true)) = .panic b4 ∧
      b4.mm = (map_range sample_config vmemmap_populate ⟨0, 256⟩
        (direct_cleared (fun _ => true))).2 ∧
      b4.cr3 = Cr3.early_level4_pgt ∧
      b4.poisoned_page = (provisional_boot (fun _ => true)).poisoned_page ∧
      b4.kasan_depth = (provisional_boot (fun _ => true)).kasan_depth ∧
      ∀ e ∈ b4.log, e.early = true :=
  kasan_init_panics sample_config vmemmap_populate [] ⟨0, 256⟩ [⟨0, 0⟩]
    (provisional_boot (fun _ => true)) (direct_cleared (fun _ => true))
    { provisional_boot (fun _ => true) with
      mm := direct_cleared (fun _ => true)
      early_level4_pgt := (provisional_state (fun _ => true)).pgd
      cr3 := Cr3.early_level4_pgt
      log := [Event.vm_area_add_early, Event.load_cr3_early, Event.clear_direct_map] }
    rfl rfl (by simp) rfl (by decide) (by decide)

/-- C5 fails on the code: with one reported range of 8 page frames and a boot
allocator that has 5 pages left (just enough for the shadow of that range),
the populator of the kernel image (step 7, here the populator of section 4.3)
and `map_zeroes` (step 8) both return `-ENOMEM`, and `kasan_init` still runs to
its end: it switches back to `init_level4_pgt` and resets `kasan_depth`. -/
theorem kasan_init_ignores_failures :
    ∃ b, kasan_init sample_config vmemmap_populate [⟨0, 8⟩, ⟨0, 0⟩]
        (provisional_boot (fun n => decide (5 ≤ n))) = .done b ∧
      b.log = [Event.vm_area_add_early, Event.load_cr3_early, Event.clear_direct_map,
        Event.map_range 0, Event.clear_kernel_map, Event.populate_image (-ENOMEM),
        Event.map_zeroes (-ENOMEM), Event.memset_poisoned_page, Event.load_cr3_init,
        Event.reset_kasan_depth] ∧
      b.cr3 = Cr3.init_level4_pgt ∧ b.kasan_depth = 0 :=
  ⟨_, rfl, rfl, rfl, rfl⟩

/-! ## Which top-level entries a populate pass can touch -/

/-- Step 8 does turn unmapped leaf entries into the zero page: under
`small_config` the leaf entry of the first shadow address of the window of
step 8 (entry 510 of leaf table 14) is unmapped when step 8 begins and holds
the shared zero page when `kasan_init` has returned. -/
theorem small_done_zero_leaf :
    ∃ m, kasan_init_before_map_zeroes small_config vmemmap_populate [⟨0, 8⟩, ⟨0, 0⟩]
        (provisional_boot (fun _ => false)) = some m ∧
      pte_index (kasan_mem_to_shadow small_config small_config.MODULES_VADDR) = 510 ∧
      walk_pmd small_done.mm (kasan_mem_to_shadow small_config small_config.MODULES_VADDR) =
        some 14 ∧
      m.pte 14 510 = none ∧ small_done.mm.pte 14 510 = some empty_zero_page ∧
      walk small_done.mm (kasan_mem_to_shadow small_config small_config.MODULES_VADDR) =
        some empty_zero_page :=
  ⟨_, rfl, by decide, rfl, rfl, rfl, rfl⟩

end Kasan
